import Mathlib

/-!
# minihttp: request parser, response builder and connection handler

A shallow embedding of `request.go`, `response.go`, `constants.go` and
`server.go` of the `minihttp` package, followed by theorems about them.

Conventions of the embedding:

* a Go `string` is a list of characters (`Str`), one character per byte;
* a Go `map[string]string` is an association list with unique keys
  (`GoMap`); reading an absent key gives the empty string, as in Go;
* `*Request` is mutated in place by `Parse`, so `Parse` returns the updated
  request together with the optional error;
* loops whose termination is not structural carry a fuel argument that is
  initialised with the length of the string they consume; that this much fuel
  is always enough is shown by `parseLoop_eq_parseLines`, `framesFuel_eq`,
  `drain_fuel` and `cleanLoop_fuel`;
* the clock, the file system and the MIME table are read through an `Env`,
  which is the same for all the requests of a connection;
* a connection is the list of results its successive `Read` calls give, and
  the observable outcome is the list of responses written and whether the
  server closed the socket.
-/

namespace Minihttp

/-- Go `string`: a sequence of bytes, one `Char` per byte. -/
abbrev Str := List Char

/-! ## Go standard library functions used by the package -/

/-- Go `strings.Index(s, sub)`: position of the first occurrence of `sub` in
`s`; `none` stands for Go's `-1`. -/
def Index : Str → Str → Option Nat
  | s, sub =>
    if sub.isPrefixOf s then some 0
    else match s with
      | [] => none
      | _ :: t => (Index t sub).map (· + 1)

/-- Go `strings.Contains(s, sub)`, which is `Index(s, sub) >= 0`. -/
def Contains (s sub : Str) : Bool := (Index s sub).isSome

/-- Go `strings.HasPrefix`. -/
def HasPrefix (s pre : Str) : Bool := pre.isPrefixOf s

/-- Go `strings.HasSuffix`. -/
def HasSuffix (s suf : Str) : Bool := suf.isSuffixOf s

/-- Go `strings.Split(s, sep)` for a one-byte separator (the only call in the
package is `strings.Split(line, " ")`). -/
def Split : Str → Char → List Str
  | [], _ => [[]]
  | c :: cs, sep =>
    if c = sep then [] :: Split cs sep
    else match Split cs sep with
      | [] => [[c]]
      | h :: t => (c :: h) :: t

/-- Go `strings.Cut(s, sep)`: `before, after, found`. -/
def Cut (s sep : Str) : Str × Str × Bool :=
  match Index s sep with
  | some i => (s.take i, s.drop (i + sep.length), true)
  | none => (s, [], false)

/-- Go `strings.Trim(s, cutset)`. -/
def Trim (s cutset : Str) : Str :=
  (s.dropWhile (fun c => cutset.contains c)).rdropWhile (fun c => cutset.contains c)

/-- Go `fmt.Sprint` of an integer: its decimal representation. -/
def Sprint (n : Int) : Str :=
  if n < 0 then '-' :: Nat.toDigits 10 n.natAbs else Nat.toDigits 10 n.toNat

/-- Go `net/textproto`'s `validHeaderFieldByte`: the RFC 7230 token bytes. -/
def validHeaderFieldByte (c : Char) : Bool :=
  c.isAlphanum || "!#$%&\x27*+-.^_\x60|~".toList.contains c

/-- The rewriting loop of `net/textproto`'s `canonicalMIMEHeaderKey`: upper
case for the first letter and after each dash, lower case elsewhere. -/
def canonicalMIMEHeaderKey : Bool → Str → Str
  | _, [] => []
  | upper, c :: cs =>
    let c1 := if upper && c.isLower then c.toUpper
              else if !upper && c.isUpper then c.toLower
              else c
    c1 :: canonicalMIMEHeaderKey (c1 == '-') cs

/-- Go `textproto.CanonicalMIMEHeaderKey`: a key holding a byte that is not a
token byte (a space included) is returned unchanged. -/
def CanonicalMIMEHeaderKey (s : Str) : Str :=
  if s.all validHeaderFieldByte then canonicalMIMEHeaderKey true s else s

/-- The backtracking of `path.Clean` on a `..` element, on the reversed output
buffer: `last` is the byte at the write cursor. -/
def cleanBacktrack (dotdot : Nat) : Char → Str → Str
  | _, [] => []
  | last, c :: r =>
    if (c :: r).length > dotdot && last != '/' then cleanBacktrack dotdot c r
    else c :: r

/-- The main loop of Go `path.Clean`: `path` is the unread input, `out` the
output buffer, `dotdot` the index where `..` must stop. -/
def cleanLoop : Nat → Bool → Str → Str → Nat → Str
  | 0, _, _, out, _ => out
  | fuel + 1, rooted, path, out, dotdot =>
    match path with
    | [] => out
    | c :: rest =>
      if c = '/' then
        cleanLoop fuel rooted rest out dotdot
      else if c = '.' && (rest.isEmpty || rest.head? = some '/') then
        cleanLoop fuel rooted rest out dotdot
      else if c = '.' && rest.head? = some '.' &&
          (rest.tail.isEmpty || rest.tail.head? = some '/') then
        if out.length > dotdot then
          match out.reverse with
          | [] => cleanLoop fuel rooted rest.tail out dotdot
          | l :: r => cleanLoop fuel rooted rest.tail (cleanBacktrack dotdot l r).reverse dotdot
        else if !rooted then
          let out1 := (if out.length > 0 then out ++ ['/'] else out) ++ ['.', '.']
          cleanLoop fuel rooted rest.tail out1 out1.length
        else
          cleanLoop fuel rooted rest.tail out dotdot
      else
        let out1 :=
          if (rooted && out.length != 1) || (!rooted && out.length != 0) then out ++ ['/']
          else out
        cleanLoop fuel rooted (path.dropWhile (fun x => x != '/'))
          (out1 ++ path.takeWhile (fun x => x != '/')) dotdot

/-- Go `path.Clean`. -/
def Clean (path : Str) : Str :=
  if path.isEmpty then ['.']
  else
    let rooted := path.head? = some '/'
    let out :=
      if rooted then cleanLoop path.length true path.tail ['/'] 1
      else cleanLoop path.length false path [] 0
    if out.isEmpty then ['.'] else out

/-- Go `path.Join(a, b)`: the non-empty elements joined with `/`, cleaned. -/
def Join (a b : Str) : Str :=
  if a.isEmpty && b.isEmpty then []
  else if a.isEmpty then Clean b
  else if b.isEmpty then Clean a
  else Clean (a ++ '/' :: b)

/-- The backwards scan of Go `path.Ext` over the reversed path. -/
def extScan : Str → Str → Str
  | [], _ => []
  | c :: r, acc =>
    if c = '/' then [] else if c = '.' then c :: acc else extScan r (c :: acc)

/-- Go `path.Ext`: the suffix starting at the last dot of the last element. -/
def Ext (path : Str) : Str := extScan path.reverse []

/-! ## Go maps -/

/-- Go `map[string]string`. -/
structure GoMap where
  entries : List (Str × Str)
  deriving DecidableEq, Repr

namespace GoMap

/-- Go `make(map[string]string)`. -/
def make : GoMap := ⟨[]⟩

/-- Lookup in the entries; `none` when the key is absent. -/
def find : List (Str × Str) → Str → Option Str
  | [], _ => none
  | (k1, v) :: m, k => if k1 = k then some v else find m k

/-- Go `m[k]` as an expression: the zero value `""` for an absent key. -/
def get (m : GoMap) (k : Str) : Str := (find m.entries k).getD []

/-- Insertion in the entries, replacing the value of an existing key. -/
def insert : List (Str × Str) → Str → Str → List (Str × Str)
  | [], k, v => [(k, v)]
  | (k1, v1) :: m, k, v => if k1 = k then (k, v) :: m else (k1, v1) :: insert m k v

/-- Go `m[k] = v`. -/
def set (m : GoMap) (k v : Str) : GoMap := ⟨insert m.entries k v⟩

end GoMap

/-! ## constants.go -/

def StatusOK : Int := 200
def StatusOKText : Str := "OK".toList
def StatusMovedPermanently : Int := 301
def StatusMovedPermanentlyText : Str := "Moved permanently".toList
def StatusBadRequest : Int := 400
def StatusBadRequestText : Str := "Bad request".toList
def StatusNotFound : Int := 404
def StatusNotFoundText : Str := "Not found".toList
def StatusInternalServerError : Int := 500
def StatusInternalServerErrorText : Str := "Internal Server Error".toList

/-- The line terminator `"\r\n"`. -/
def CRLF : Str := ['\r', '\n']

/-- The frame delimiter `"\r\n\r\n"`. -/
def CRLFCRLF : Str := ['\r', '\n', '\r', '\n']

/-! ## request.go -/

structure Request where
  Method : Str
  URL : Str
  Proto : Str
  Host : Str
  Close : Bool
  Headers : GoMap
  Body : Str
  deriving DecidableEq, Repr

structure InvalidRequestError where
  Method : Str
  URL : Str
  Description : Str
  deriving DecidableEq, Repr

/-- The request `handleConnection` starts with: `new(Request)` with an empty
`Headers` map. -/
def Request.new : Request :=
  { Method := [], URL := [], Proto := [], Host := [], Close := false,
    Headers := GoMap.make, Body := [] }

/-- The body of `Parse`'s loop for the first line (`lineCount == 1`). -/
def Request.parseStartLine (req : Request) (line : Str) :
    Request × Option InvalidRequestError :=
  match Split line ' ' with
  | [e0, e1, e2] =>
    if e0 = "GET".toList then
      let req1 := { req with Method := "GET".toList, URL := e1 }
      if !HasPrefix req1.URL ['/'] then
        (req1, some ⟨req1.Method, req1.URL, "invalid URL".toList⟩)
      else
        let req2 :=
          if HasSuffix req1.URL ['/'] then { req1 with URL := req1.URL ++ "index.html".toList }
          else req1
        let req3 := { req2 with Proto := e2 }
        if req3.Proto ≠ "HTTP/1.1".toList then
          (req3, some ⟨req3.Method, req3.URL, req3.Proto⟩)
        else (req3, none)
    else
      (req, some ⟨req.Method, req.URL, "unsupported method".toList⟩)
  | _ => (req, some ⟨"start".toList, "line:".toList, line⟩)

/-- The body of `Parse`'s loop for a header line (`lineCount != 1`). -/
def Request.parseHeaderLine (req : Request) (line : Str) :
    Request × Option InvalidRequestError :=
  match Cut line [':'] with
  | (key, value, found) =>
    if !found || key = [] then
      (req, some ⟨req.Method, req.URL, "invalid header: ".toList ++ line⟩)
    else
      let key1 := CanonicalMIMEHeaderKey key
      let value1 := Trim value [' ']
      if key1 = "Host".toList then ({ req with Host := value1 }, none)
      else if key1 = "Connection".toList then
        if value1 = "close".toList then ({ req with Close := true }, none)
        else ({ req with Close := false }, none)
      else ({ req with Headers := req.Headers.set key1 value1 }, none)

/-- The loop of `Parse`: `for strings.Contains(remaining, "\r\n")`. The result
is the request, the unconsumed rest and the error returned from inside the
loop, if any. -/
def Request.parseLoop : Nat → Request → Str → Nat →
    Request × Str × Option InvalidRequestError
  | 0, req, remaining, _ => (req, remaining, none)
  | fuel + 1, req, remaining, lineCount =>
    match Index remaining CRLF with
    | none => (req, remaining, none)
    | some idx =>
      let lineCount1 := lineCount + 1
      let line := remaining.take idx
      let remaining1 := remaining.drop (idx + 2)
      let r :=
        if lineCount1 = 1 then req.parseStartLine line else req.parseHeaderLine line
      match r.2 with
      | some e => (r.1, remaining1, some e)
      | none => Request.parseLoop fuel r.1 remaining1 lineCount1

/-- `func (req *Request) Parse(reqString string) error`: the request after the
call and the error (`none` for `nil`). -/
def Request.Parse (req : Request) (reqString : Str) :
    Request × Option InvalidRequestError :=
  match Request.parseLoop reqString.length req reqString 0 with
  | (req1, _, some e) => (req1, some e)
  | (req1, remaining, none) =>
    if req1.Host = [] then
      (req1, some ⟨req1.Method, req1.URL, "unspecified host".toList⟩)
    else if remaining.length ≠ 0 then
      (req1, some ⟨req1.Method, req1.URL, "incomplete request, remaining: ".toList ++ remaining⟩)
    else (req1, none)

/-! ## response.go -/

structure Response where
  Proto : Str
  StatusCode : Int
  StatusText : Str
  Headers : GoMap
  Body : Str
  deriving DecidableEq, Repr

/-- `func (resp *Response) String() string`, for the order `order` in which the
`range` statement visits the entries of `resp.Headers` (Go leaves the order of
a map iteration unspecified). -/
def Response.String (resp : Response) (order : List (Str × Str)) : Str :=
  let headers0 := resp.Proto ++ [' '] ++ Sprint resp.StatusCode ++ [' '] ++ resp.StatusText ++ CRLF
  let headers := order.foldl (fun h kv => h ++ (kv.1 ++ [':', ' '] ++ kv.2 ++ CRLF)) headers0
  headers ++ CRLF ++ resp.Body

/-- 301 Moved Permanently. -/
def ResponseMovedPermanently (proto location : Str) (close : Bool) : Response :=
  let h0 := GoMap.make
  let h1 := if close then h0.set "Connection".toList "close".toList else h0
  let h2 := h1.set "Location".toList location
  let body : Str := []
  { Proto := proto, StatusCode := StatusMovedPermanently,
    StatusText := StatusMovedPermanentlyText,
    Headers := h2.set "Content-Length".toList (Sprint body.length), Body := body }

/-- 400 Bad Request. -/
def ResponseBadRequest (proto : Str) : Response :=
  let h1 := GoMap.make.set "Connection".toList "close".toList
  let body : Str := []
  { Proto := proto, StatusCode := StatusBadRequest, StatusText := StatusBadRequestText,
    Headers := h1.set "Content-Length".toList (Sprint body.length), Body := body }

/-- 404 Not Found. -/
def ResponseNotFound (proto : Str) (close : Bool) : Response :=
  let h0 := GoMap.make
  let h1 := if close then h0.set "Connection".toList "close".toList else h0
  let body : Str := []
  { Proto := proto, StatusCode := StatusNotFound, StatusText := StatusNotFoundText,
    Headers := h1.set "Content-Length".toList (Sprint body.length), Body := body }

/-- 500 Internal Server Error. -/
def ResponseInternalServerError (proto : Str) : Response :=
  let h1 := GoMap.make.set "Connection".toList "close".toList
  let body : Str := []
  { Proto := proto, StatusCode := StatusInternalServerError,
    StatusText := StatusInternalServerErrorText,
    Headers := h1.set "Content-Length".toList (Sprint body.length), Body := body }

/-! ## server.go -/

structure Server where
  Addr : Str
  VirtualHosts : GoMap

/-- What `os.Stat` reports about a path, as far as `handleGET` reads it. -/
structure FileInfo where
  IsDir : Bool
  Size : Int
  /-- The text `ModTime().UTC().Format(time.RFC1123)`. -/
  ModTime : Str
  deriving DecidableEq, Repr

/-- The environment `handleGET` reads. -/
structure Env where
  /-- The text `time.Now().UTC().Format(time.RFC1123)`. -/
  Now : Str
  /-- Go `os.Stat`; `none` when it returns an error. -/
  Stat : Str → Option FileInfo
  /-- Go `os.ReadFile` with its error discarded, as the caller does. -/
  ReadFile : Str → Str
  /-- Go `mime.TypeByExtension`. -/
  TypeByExtension : Str → Str

/-- `func (s *Server) handleGET(req *Request) *Response`. -/
def Server.handleGET (s : Server) (env : Env) (req : Request) : Response :=
  let resp : Response :=
    { Proto := req.Proto, StatusCode := StatusOK, StatusText := StatusOKText,
      Headers := GoMap.make.set "Date".toList env.Now, Body := [] }
  if s.VirtualHosts.get req.Host = [] then
    ResponseNotFound req.Proto req.Close
  else
    let filePath := Clean (Join (s.VirtualHosts.get req.Host) req.URL)
    if !Contains filePath (s.VirtualHosts.get req.Host) then
      ResponseNotFound req.Proto req.Close
    else
      match env.Stat filePath with
      | none => ResponseNotFound req.Proto req.Close
      | some fileInfo =>
        if fileInfo.IsDir then
          ResponseMovedPermanently req.Proto (req.URL ++ ['/']) req.Close
        else
          let h1 := resp.Headers.set "Content-Length".toList (Sprint fileInfo.Size)
          let h2 := h1.set "Last-Modified".toList fileInfo.ModTime
          let h3 := h2.set "Content-Type".toList (env.TypeByExtension (Ext filePath))
          let h4 := if req.Close then h3.set "Connection".toList "close".toList else h3
          { resp with Headers := h4, Body := env.ReadFile filePath }

/-- The server's side of a connection: the responses written so far (each is
sent as `conn.Write([]byte(resp.String()))`) and whether the server has closed
the socket. -/
structure Conn where
  written : List Response
  closed : Bool
  deriving DecidableEq, Repr

def Conn.Write (conn : Conn) (resp : Response) : Conn :=
  { conn with written := conn.written ++ [resp] }

def Conn.Close (conn : Conn) : Conn := { conn with closed := true }

/-- What one `conn.Read(buf)` on an open socket gives: bytes, `io.EOF`, a
timeout, or another error. On a socket the server has closed, `Read` fails
with `net.ErrClosed`. -/
inductive ReadResult where
  | data (bytes : Str)
  | eof
  | timeout
  | other
  deriving DecidableEq, Repr

/-- The parse-and-dispatch step of `handleConnection` on one frame: the
request after `Parse` and the response to write. -/
def Server.respond (s : Server) (env : Env) (req : Request) (reqString : Str) :
    Request × Response :=
  match req.Parse reqString with
  | (req1, some _) => (req1, ResponseBadRequest "HTTP/1.1".toList)
  | (req1, none) =>
    if req1.Method = "GET".toList then (req1, s.handleGET env req1)
    else (req1, ResponseInternalServerError req1.Proto)

/-- The inner loop of `handleConnection`:
`for strings.Contains(remaining, "\r\n\r\n")`. -/
def Server.drain (s : Server) (env : Env) : Nat → Request → Str → Conn →
    Request × Str × Conn
  | 0, req, remaining, conn => (req, remaining, conn)
  | fuel + 1, req, remaining, conn =>
    match Index remaining CRLFCRLF with
    | none => (req, remaining, conn)
    | some idx =>
      let reqString := remaining.take (idx + 2)
      let remaining1 := remaining.drop (idx + 4)
      let r := s.respond env req reqString
      let conn1 := conn.Write r.2
      if r.2.Headers.get "Connection".toList = "close".toList then
        (r.1, remaining1, conn1.Close)
      else
        Server.drain s env fuel r.1 remaining1 conn1

/-- The outer loop of `handleConnection`, from its top, for the results
`reads` of the coming `Read` calls. When `reads` is used up the handler is
blocked in `Read` and the state reached so far is returned. -/
def Server.serve (s : Server) (env : Env) : List ReadResult → Request → Str → Conn → Conn
  | [], req, remaining, conn => (s.drain env remaining.length req remaining conn).2.2
  | r :: reads, req, remaining, conn =>
    match s.drain env remaining.length req remaining conn with
    | (req1, remaining1, conn1) =>
      if conn1.closed then conn1
      else
        match r with
        | .data bytes => Server.serve s env reads req1 (remaining1 ++ bytes) conn1
        | .eof => conn1.Close
        | .timeout =>
          if remaining1 ≠ [] then
            (conn1.Write (ResponseBadRequest "HTTP/1.1".toList)).Close
          else conn1.Close
        | .other => conn1.Close

/-- `func (s *Server) handleConnection(conn net.Conn)` on a fresh connection. -/
def Server.handleConnection (s : Server) (env : Env) (reads : List ReadResult) : Conn :=
  s.serve env reads Request.new [] ⟨[], false⟩

/-! ## Evaluation on the scenarios of `server_test.go` -/

/-- The virtual hosts of `startServer` in `server_test.go`. -/
def testServer : Server :=
  { Addr := "localhost:8081".toList,
    VirtualHosts := (GoMap.make.set "website1".toList "cmd/demo/example".toList).set
      "website2".toList "cmd/demo".toList }

/-- A file system with the directories `cmd/demo`, `cmd/demo/example` and the
file `cmd/demo/example/index.html`. -/
def testEnv : Env :=
  { Now := "Mon, 02 Jan 2006 15:04:05 UTC".toList,
    Stat := fun p =>
      if p = "cmd/demo".toList ∨ p = "cmd/demo/example".toList then
        some ⟨true, 4096, "Mon, 02 Jan 2006 15:04:05 UTC".toList⟩
      else if p = "cmd/demo/example/index.html".toList then
        some ⟨false, 5, "Mon, 02 Jan 2006 15:04:05 UTC".toList⟩
      else none,
    ReadFile := fun p => if p = "cmd/demo/example/index.html".toList then "hello".toList else [],
    TypeByExtension := fun e => if e = ".html".toList then "text/html; charset=utf-8".toList else [] }

/-! ## Specification-side vocabulary

The definitions below are not part of the program: they name the notions
the properties are stated with (the lines of a frame, the frames of a receive
buffer, the responses owed to a list of frames). -/

/-- The pieces of `s` between its occurrences of CRLF, like
`strings.Split(s, "\r\n")`. -/
def splitCRLF : Str → List Str
  | [] => [[]]
  | [c] => [[c]]
  | c :: d :: rest =>
    if c = '\r' ∧ d = '\n' then [] :: splitCRLF rest
    else match splitCRLF (d :: rest) with
      | [] => [[c]]
      | h :: t => (c :: h) :: t

/-- The lines of a frame: the pieces that are followed by a CRLF. The first is
the start line, the others are the header lines. -/
def frameLines (s : Str) : List Str := (splitCRLF s).dropLast

/-- The loop body of `Parse` run over a list of lines, `lineCount` lines having
been read before. -/
def Request.parseLines : Request → Nat → List Str → Request × Option InvalidRequestError
  | req, _, [] => (req, none)
  | req, lineCount, l :: ls =>
    let r := if lineCount + 1 = 1 then req.parseStartLine l else req.parseHeaderLine l
    match r.2 with
    | some e => (r.1, some e)
    | none => Request.parseLines r.1 (lineCount + 1) ls

/-- A start line of exactly three single-space-separated tokens: `GET`, a
target beginning with `/`, and `HTTP/1.1`. -/
def ValidStartLine (l : Str) : Prop :=
  ∃ t : Str, t.head? = some '/' ∧ ' ' ∉ t ∧ l = "GET ".toList ++ t ++ " HTTP/1.1".toList

/-- A header line with no `:` or with an empty name before the `:`. -/
def BadHeaderLine (h : Str) : Prop := ':' ∉ h ∨ h.head? = some ':'

instance (h : Str) : Decidable (BadHeaderLine h) := by
  unfold BadHeaderLine
  infer_instance

/-- The frames of a receive buffer, as handed to `Parse`: each is the prefix of
what is left that ends with the first CRLF of the first CRLF CRLF; the second
CRLF is consumed with it. -/
def framesFuel : Nat → Str → List Str
  | 0, _ => []
  | fuel + 1, buf =>
    match Index buf CRLFCRLF with
    | none => []
    | some idx => buf.take (idx + 2) :: framesFuel fuel (buf.drop (idx + 4))

/-- The frames of a receive buffer. -/
def frames (buf : Str) : List Str := framesFuel buf.length buf

/-- The response carries `Connection: close`. -/
def Response.closes (resp : Response) : Bool :=
  resp.Headers.get "Connection".toList = "close".toList

/-- The responses to a list of frames handled one after the other, the request
object being passed on from each frame to the next. -/
def Server.responses (s : Server) (env : Env) : Request → List Str → List Response
  | _, [] => []
  | req, f :: fs => (s.respond env req f).2 :: Server.responses s env (s.respond env req f).1 fs

/-- The prefix of a list up to and including its first element satisfying `p`
(the whole list when there is none). -/
def takeThrough {α : Type} (p : α → Bool) : List α → List α
  | [] => []
  | a :: l => if p a then [a] else a :: takeThrough p l

/-- The URL `Parse` stores for the target `t`: `index.html` is appended to a
target ending with `/`. -/
def normalizeURL (t : Str) : Str :=
  if HasSuffix t ['/'] then t ++ "index.html".toList else t

/-- A file system in which `cmd/demo/example/index.html` is a directory. -/
def dirEnv : Env :=
  { testEnv with
    Stat := fun p =>
      if p = "cmd/demo".toList ∨ p = "cmd/demo/example".toList ∨
          p = "cmd/demo/example/index.html".toList then
        some ⟨true, 4096, "Mon, 02 Jan 2006 15:04:05 UTC".toList⟩
      else none }

/-- A file system with the document root `cmd/demo/example` and, next to it,
the directory `cmd/demo/example-private` holding the file `key`. -/
def siblingEnv : Env :=
  { testEnv with
    Stat := fun p =>
      if p = "cmd/demo".toList ∨ p = "cmd/demo/example".toList ∨
          p = "cmd/demo/example-private".toList then
        some ⟨true, 4096, "Mon, 02 Jan 2006 15:04:05 UTC".toList⟩
      else if p = "cmd/demo/example-private/key".toList then
        some ⟨false, 6, "Mon, 02 Jan 2006 15:04:05 UTC".toList⟩
      else none,
    ReadFile := fun p =>
      if p = "cmd/demo/example-private/key".toList then "secret".toList else [] }

/-- The path `p` is the directory `root` or lies below it. -/
def withinRoot (root p : Str) : Bool := p = root || (root ++ ['/']).isPrefixOf p

/-- The request held after the frame `GET / HTTP/1.1`, `Host: website1`. -/
def website1Request : Request :=
  { Method := "GET".toList, URL := "/index.html".toList, Proto := "HTTP/1.1".toList,
    Host := "website1".toList, Close := false, Headers := GoMap.make, Body := [] }

/-- The letter-case step of `canonicalMIMEHeaderKey` on one byte. -/
def canonStep (upper : Bool) (c : Char) : Char :=
  if upper && c.isLower then c.toUpper else if !upper && c.isUpper then c.toLower else c

/-- Equality of two strings ignoring the case of the ASCII letters. -/
def eqIgnoreCase (a b : Str) : Bool := a.map Char.toLower = b.map Char.toLower

/-- The name of a header line: what stands before its first colon. -/
def headerName (h : Str) : Str := h.takeWhile (fun c => c != ':')

/-- The value of a header line: what follows its first colon, with the
leading and trailing space characters removed. -/
def headerValue (h : Str) : Str := Trim (h.dropWhile (fun c => c != ':')).tail [' ']

/-- The last of the header lines `hs` whose name is `name` ignoring case. -/
def lastHeaderLine (name : Str) (hs : List Str) : Option Str :=
  (hs.filter (fun h => eqIgnoreCase (headerName h) name)).getLast?

/-- What a header line that is neither `Host` nor `Connection` does to the
header map: it stores its value under its canonical name. -/
def storeHeader (m : GoMap) (h : Str) : GoMap :=
  if eqIgnoreCase (headerName h) "Host".toList then m
  else if eqIgnoreCase (headerName h) "Connection".toList then m
  else m.set (CanonicalMIMEHeaderKey (headerName h)) (headerValue h)

/-- The pieces of `s` between the bytes that satisfy `p`. -/
def splitWhere (p : Char → Bool) : Str → List Str
  | [] => [[]]
  | c :: cs =>
    if p c then [] :: splitWhere p cs
    else match splitWhere p cs with
      | [] => [[c]]
      | h :: t => (c :: h) :: t

/-- The tokens of `s` separated by runs of bytes that satisfy `p`, like
`strings.FieldsFunc(s, p)`. -/
def tokensWhere (p : Char → Bool) (s : Str) : List Str :=
  (splitWhere p s).filter (fun x => !x.isEmpty)

/-- The ASCII white space: space, tab, line feed, vertical tab, form feed,
carriage return. -/
def isSpace (c : Char) : Bool := c = ' ' || (9 ≤ c.toNat && c.toNat ≤ 13)

/-- The keys of a map, in the order of its entries. -/
def GoMap.keys (m : List (Str × Str)) : List Str := m.map Prod.fst

/-- A sequence of assignments `m[k] = v` carried out on a map. -/
def GoMap.assign (m : List (Str × Str)) (ops : List (Str × Str)) : List (Str × Str) :=
  ops.foldl (fun m kv => GoMap.insert m kv.1 kv.2) m

/-- The last value assigned to `k` by a sequence of assignments. -/
def GoMap.lastAssigned : List (Str × Str) → Str → Option Str
  | [], _ => none
  | kv :: ops, k =>
    match GoMap.lastAssigned ops k with
    | some v => some v
    | none => if kv.1 = k then some kv.2 else none

/-- The assignments to the header map that the header lines `hs` make. -/
def headerOps (hs : List Str) : List (Str × Str) :=
  hs.filterMap (fun h =>
    if eqIgnoreCase (headerName h) "Host".toList then none
    else if eqIgnoreCase (headerName h) "Connection".toList then none
    else some (CanonicalMIMEHeaderKey (headerName h), headerValue h))

/-! ## Lemmas on the library functions -/

theorem Index_cons (c : Char) (t sub : Str) :
    Index (c :: t) sub =
      if sub.isPrefixOf (c :: t) then some 0 else (Index t sub).map (· + 1) := by
  rw [Index]

theorem Index_nil (sub : Str) :
    Index [] sub = if sub.isPrefixOf [] then some 0 else none := by
  rw [Index]

/-- At the index found, the substring is there. -/
theorem Index_some_at {s sub : Str} {i : Nat} (h : Index s sub = some i) :
    sub <+: s.drop i := by
  induction s generalizing i with
  | nil =>
    rw [Index_nil] at h
    split at h
    · rename_i hp
      cases h
      simpa using List.isPrefixOf_iff_prefix.mp hp
    · cases h
  | cons c t ih =>
    rw [Index_cons] at h
    split at h
    · rename_i hp
      cases h
      simpa using List.isPrefixOf_iff_prefix.mp hp
    · cases hj : Index t sub with
      | none => simp [hj] at h
      | some j =>
        simp [hj] at h
        subst h
        simpa using ih hj

/-- The occurrence found lies inside the string. -/
theorem Index_some_le {s sub : Str} {i : Nat} (h : Index s sub = some i) :
    i + sub.length ≤ s.length := by
  have hp := (Index_some_at h).length_le
  simp at hp
  induction s generalizing i with
  | nil =>
    rw [Index_nil] at h
    split at h
    · cases h; simpa using hp
    · cases h
  | cons c t ih =>
    rw [Index_cons] at h
    split at h
    · cases h; simpa using hp
    · cases hj : Index t sub with
      | none => simp [hj] at h
      | some j =>
        simp [hj] at h
        subst h
        have := ih hj (by have := (Index_some_at hj).length_le; simpa using this)
        simp; omega

/-! ## The lines of a string and the loop of `Parse` -/

theorem splitCRLF_ne_nil (s : Str) : splitCRLF s ≠ [] := by
  induction s using splitCRLF.induct with
  | case1 => simp [splitCRLF]
  | case2 c => simp [splitCRLF]
  | case3 c d rest h ih => simp [splitCRLF, h]
  | case4 c d rest h heq => simp [splitCRLF, h, heq]
  | case5 c d rest h x t heq => simp [splitCRLF, h, heq]

theorem splitCRLF_of_Index_none {s : Str} (h : Index s CRLF = none) : splitCRLF s = [s] := by
  induction s using splitCRLF.induct with
  | case1 => simp [splitCRLF]
  | case2 c => simp [splitCRLF]
  | case3 c d rest hc ih =>
    rw [Index_cons] at h
    simp [CRLF, List.isPrefixOf, hc.1, hc.2] at h
  | case4 c d rest hc heq => exact absurd heq (splitCRLF_ne_nil _)
  | case5 c d rest hc x t heq ih =>
    rw [Index_cons] at h
    split at h
    · cases h
    · simp at h
      rw [ih h] at heq
      simp [splitCRLF, hc]
      rw [ih h]

theorem splitCRLF_of_Index_some {s : Str} {idx : Nat} (h : Index s CRLF = some idx) :
    splitCRLF s = s.take idx :: splitCRLF (s.drop (idx + 2)) := by
  induction s using splitCRLF.induct generalizing idx with
  | case1 => rw [Index_nil] at h; simp [CRLF, List.isPrefixOf] at h
  | case2 c =>
    rw [Index_cons, Index_nil] at h; simp [CRLF, List.isPrefixOf] at h
  | case3 c d rest hc ih =>
    rw [Index_cons] at h
    simp [CRLF, List.isPrefixOf, hc.1, hc.2] at h
    subst h
    simp [splitCRLF, hc]
  | case4 c d rest hc heq => exact absurd heq (splitCRLF_ne_nil _)
  | case5 c d rest hc x t heq ih =>
    rw [Index_cons] at h
    have hnp : CRLF.isPrefixOf (c :: d :: rest) = false := by
      simp only [CRLF, List.isPrefixOf]
      by_contra hh
      simp at hh
      exact hc ⟨hh.1.symm, hh.2.symm⟩
    simp [hnp] at h
    obtain ⟨j, hj, rfl⟩ := h
    have := ih hj
    simp [splitCRLF, hc]
    rw [this]
    simp

theorem frameLines_of_Index_none {s : Str} (h : Index s CRLF = none) : frameLines s = [] := by
  simp [frameLines, splitCRLF_of_Index_none h]

theorem frameLines_of_Index_some {s : Str} {idx : Nat} (h : Index s CRLF = some idx) :
    frameLines s = s.take idx :: frameLines (s.drop (idx + 2)) := by
  simp [frameLines, splitCRLF_of_Index_some h, List.dropLast_cons_of_ne_nil (splitCRLF_ne_nil _)]

/-- With fuel at least the length of the input, the loop of `Parse` is the
fold of its body over the lines of the input, and when no line fails it stops
with the piece after the last CRLF left over. -/
theorem parseLoop_eq_parseLines (fuel : Nat) (req : Request) (remaining : Str) (lineCount : Nat)
    (hf : remaining.length ≤ fuel) :
    (Request.parseLoop fuel req remaining lineCount).1
        = (req.parseLines lineCount (frameLines remaining)).1 ∧
    (Request.parseLoop fuel req remaining lineCount).2.2
        = (req.parseLines lineCount (frameLines remaining)).2 ∧
    ((req.parseLines lineCount (frameLines remaining)).2 = none →
      (splitCRLF remaining).getLast? =
        some (Request.parseLoop fuel req remaining lineCount).2.1) := by
  induction fuel generalizing req remaining lineCount with
  | zero =>
    have : remaining = [] := by simpa using hf
    subst this
    simp [Request.parseLoop, frameLines, splitCRLF, Request.parseLines]
  | succ n ih =>
    rw [Request.parseLoop]
    cases hi : Index remaining CRLF with
    | none =>
      simp [frameLines_of_Index_none hi, Request.parseLines, splitCRLF_of_Index_none hi]
    | some idx =>
      have hle := Index_some_le hi
      simp only [CRLF, List.length_cons, List.length_nil] at hle
      have hlen : (remaining.drop (idx + 2)).length ≤ n := by
        simp; omega
      simp only [frameLines_of_Index_some hi, Request.parseLines, splitCRLF_of_Index_some hi]
      cases hr : (if lineCount + 1 = 1 then req.parseStartLine (List.take idx remaining)
          else req.parseHeaderLine (List.take idx remaining)).2 with
      | some e => simp
      | none =>
        simp only
        have := ih (if lineCount + 1 = 1 then req.parseStartLine (List.take idx remaining)
          else req.parseHeaderLine (List.take idx remaining)).1 (remaining.drop (idx + 2))
          (lineCount + 1) hlen
        refine ⟨this.1, this.2.1, ?_⟩
        intro h
        obtain ⟨b, l, hbl⟩ :=
          List.exists_cons_of_ne_nil (splitCRLF_ne_nil (remaining.drop (idx + 2)))
        have h3 := this.2.2 h
        rw [hbl] at h3 ⊢
        rw [List.getLast?_cons_cons]
        exact h3

/-! ## Lemmas on `Parse` -/

theorem Split_ne_nil (s : Str) (sep : Char) : Split s sep ≠ [] := by
  induction s with
  | nil => simp [Split]
  | cons c cs ih =>
    rw [Split]
    split
    · simp
    · split <;> simp

/-- Joining the pieces of `Split` with the separator gives the string back. -/
theorem Split_intercalate (s : Str) (sep : Char) :
    List.intercalate [sep] (Split s sep) = s := by
  induction s with
  | nil => simp [Split, List.intercalate]
  | cons c cs ih =>
    rw [Split]
    split
    · rename_i h
      subst h
      obtain ⟨b, l, hbl⟩ := List.exists_cons_of_ne_nil (Split_ne_nil cs c)
      rw [hbl] at ih ⊢
      simp [List.intercalate] at ih ⊢
      exact ih
    · split
      · rename_i heq
        exact absurd heq (Split_ne_nil _ _)
      · rename_i h t heq
        rw [heq] at ih
        cases t with
        | nil => simpa [List.intercalate] using ih
        | cons a t => simpa [List.intercalate] using ih

/-- No piece of `Split` holds the separator. -/
theorem Split_not_mem (s : Str) (sep : Char) : ∀ e ∈ Split s sep, sep ∉ e := by
  induction s with
  | nil => simp [Split]
  | cons c cs ih =>
    rw [Split]
    split
    · intro e he
      simp at he
      rcases he with rfl | he
      · simp
      · exact ih e he
    · rename_i hne
      split
      · rename_i heq
        exact absurd heq (Split_ne_nil _ _)
      · rename_i h t heq
        rw [heq] at ih
        intro e he
        simp at he
        rcases he with rfl | he
        · have := ih h (by simp)
          simp
          exact ⟨fun hh => hne hh.symm, this⟩
        · exact ih e (by simp [he])

/-- The first line is accepted exactly when it splits into `GET`, a target
starting with `/` and `HTTP/1.1`; the request then holds the method, the
normalised target and the protocol. -/
theorem parseStartLine_none {req : Request} {l : Str} (h : (req.parseStartLine l).2 = none) :
    ∃ t, Split l ' ' = ["GET".toList, t, "HTTP/1.1".toList] ∧ HasPrefix t ['/'] = true ∧
      (req.parseStartLine l).1 =
        { req with Method := "GET".toList, URL := normalizeURL t, Proto := "HTTP/1.1".toList } := by
  unfold Request.parseStartLine at h ⊢
  split
  · rename_i e0 e1 e2 heq
    rw [heq] at h
    dsimp only at h ⊢
    by_cases h0 : e0 = "GET".toList
    · rw [if_pos h0] at h ⊢
      by_cases h1 : HasPrefix e1 ['/'] = true
      · simp only [h1, Bool.not_true, Bool.false_eq_true, if_false] at h ⊢
        by_cases h2 : e2 = "HTTP/1.1".toList
        · subst h0 h2
          refine ⟨e1, heq, h1, ?_⟩
          by_cases h3 : HasSuffix e1 ['/'] = true
          · simp [normalizeURL, h3]
          · simp [normalizeURL, h3]
        · simp [show ¬ e2 = ['H', 'T', 'T', 'P', '/', '1', '.', '1'] from h2] at h
      · simp [h1] at h
    · rw [if_neg h0] at h
      simp at h
  · rename_i hne
    split at h
    · rename_i e0 e1 e2 heq
      exact absurd heq (hne e0 e1 e2)
    · simp at h

theorem parseStartLine_ok {req : Request} {l : Str} (h : (req.parseStartLine l).2 = none) :
    ValidStartLine l := by
  obtain ⟨t, hs, hp, _⟩ := parseStartLine_none h
  refine ⟨t, ?_, ?_, ?_⟩
  · cases t with
    | nil => simp [HasPrefix, List.isPrefixOf] at hp
    | cons a t => simp [HasPrefix, List.isPrefixOf] at hp; simp [← hp]
  · exact Split_not_mem l ' ' t (by simp [hs])
  · have := Split_intercalate l ' '
    rw [hs] at this
    rw [← this]
    simp [List.intercalate]

theorem Index_singleton_none {s : Str} {c : Char} (h : c ∉ s) : Index s [c] = none := by
  induction s with
  | nil => rw [Index_nil]; simp [List.isPrefixOf]
  | cons a t ih =>
    simp at h
    rw [Index_cons]
    simp [List.isPrefixOf, h.1, ih h.2]

theorem Index_singleton_head (s : Str) (c : Char) : Index (c :: s) [c] = some 0 := by
  rw [Index_cons]; simp [List.isPrefixOf]

/-- A header line with no colon, or starting with the colon, is rejected. -/
theorem parseHeaderLine_bad {req : Request} {h : Str} (hb : BadHeaderLine h) :
    (req.parseHeaderLine h).2 ≠ none := by
  unfold Request.parseHeaderLine
  rcases hb with hb | hb
  · simp [Cut, Index_singleton_none hb]
  · cases h with
    | nil => simp at hb
    | cons a t =>
      simp at hb
      subst hb
      simp [Cut, Index_singleton_head]

/-- A bad header line anywhere makes the fold over the lines fail. -/
theorem parseLines_bad_header (req : Request) (lineCount : Nat) (hs : List Str)
    (hl : 1 ≤ lineCount) (hb : ∃ h ∈ hs, BadHeaderLine h) :
    (req.parseLines lineCount hs).2 ≠ none := by
  induction hs generalizing req lineCount with
  | nil => simp at hb
  | cons l ls ih =>
    rw [Request.parseLines]
    have hlc : ¬ (lineCount + 1 = 1) := by omega
    simp only [hlc, if_false]
    cases hr : (req.parseHeaderLine l).2 with
    | some e => simp
    | none =>
      simp only
      obtain ⟨h, hmem, hbad⟩ := hb
      simp at hmem
      rcases hmem with rfl | hmem
      · exact absurd hr (parseHeaderLine_bad hbad)
      · exact ih _ _ (by omega) ⟨h, hmem, hbad⟩

/-- A frame whose start line is not valid, or that has a bad header line, makes
the fold over its lines fail. -/
theorem parseLines_bad (req : Request) (l : Str) (hs : List Str)
    (hb : ¬ ValidStartLine l ∨ ∃ h ∈ hs, BadHeaderLine h) :
    (req.parseLines 0 (l :: hs)).2 ≠ none := by
  rw [Request.parseLines]
  simp only [Nat.zero_add, if_true]
  cases hr : (req.parseStartLine l).2 with
  | some e => simp
  | none =>
    simp only
    rcases hb with hb | hb
    · exact absurd (parseStartLine_ok hr) hb
    · exact parseLines_bad_header _ _ _ (by omega) hb

/-- The request `Parse` leaves behind is the one the fold over the lines gives. -/
theorem Parse_fst (req : Request) (s : Str) :
    (req.Parse s).1 = (req.parseLines 0 (frameLines s)).1 := by
  have h := parseLoop_eq_parseLines s.length req s 0 (le_refl _)
  unfold Request.Parse
  rw [← h.1]
  split
  · rename_i heq; simp [heq]
  · rename_i heq
    simp only [heq]
    split
    · rfl
    · split <;> rfl

/-- `Parse` returns no error exactly when no line fails, the host is set and
nothing follows the last CRLF. -/
theorem Parse_none_iff (req : Request) (s : Str) :
    (req.Parse s).2 = none ↔
      (req.parseLines 0 (frameLines s)).2 = none ∧
      (req.parseLines 0 (frameLines s)).1.Host ≠ [] ∧
      (splitCRLF s).getLast? = some [] := by
  have h := parseLoop_eq_parseLines s.length req s 0 (le_refl _)
  unfold Request.Parse
  rw [← h.1, ← h.2.1] at *
  split
  · rename_i r1 rem e heq
    simp [heq]
  · rename_i r1 rem heq
    have h3 := h.2.2
    simp only [heq] at h3 ⊢
    have h4 := h3 trivial
    rw [h4]
    by_cases hh : r1.Host = []
    · simp [hh]
    · by_cases hr : rem = []
      · simp [hh, hr]
      · simp [hh, hr]

/-- A frame on which `Parse` fails is answered with the 400 response. -/
theorem respond_of_error (s : Server) (env : Env) (req : Request) (f : Str)
    (h : (req.Parse f).2 ≠ none) :
    (s.respond env req f).2 = ResponseBadRequest "HTTP/1.1".toList := by
  unfold Server.respond
  split
  · rfl
  · rename_i heq
    rw [heq] at h
    simp at h


theorem Index_append_ne_none (a sub b : Str) : Index (a ++ (sub ++ b)) sub ≠ none := by
  induction a with
  | nil =>
    rw [Index.eq_def]
    have : sub.isPrefixOf ([] ++ (sub ++ b)) = true := by
      rw [List.isPrefixOf_iff_prefix]; simp
    simp [this]
  | cons c a ih =>
    simp only [List.cons_append]
    rw [Index_cons]
    split
    · simp
    · cases hj : Index (a ++ (sub ++ b)) sub with
      | none => exact absurd hj ih
      | some j => simp

/-- What `handleConnection` cuts off a buffer ends with CRLF. -/
theorem take_of_Index_CRLFCRLF {remaining : Str} {idx : Nat}
    (hi : Index remaining CRLFCRLF = some idx) :
    remaining.take (idx + 2) = remaining.take idx ++ CRLF := by
  obtain ⟨t, ht⟩ := Index_some_at hi
  have h1 : remaining = remaining.take idx ++ (CRLF ++ (CRLF ++ t)) := by
    conv_lhs => rw [← List.take_append_drop idx remaining, ← ht]
    simp [CRLF, CRLFCRLF]
  have hle := Index_some_le hi
  simp only [CRLFCRLF, List.length_cons, List.length_nil] at hle
  have hlen : (remaining.take idx).length = idx := by simp; omega
  conv_lhs => rw [h1]
  rw [List.take_append_eq_append_take]
  simp [hlen, CRLF]

/-- A frame cut off a buffer by `handleConnection` has a start line. -/
theorem frameLines_extracted_ne_nil {remaining : Str} {idx : Nat}
    (hi : Index remaining CRLFCRLF = some idx) :
    frameLines (remaining.take (idx + 2)) ≠ [] := by
  rw [take_of_Index_CRLFCRLF hi]
  have := Index_append_ne_none (remaining.take idx) CRLF []
  simp only [List.append_nil] at this
  cases hj : Index (remaining.take idx ++ CRLF) CRLF with
  | none => exact absurd hj this
  | some j => simp [frameLines_of_Index_some hj]

/-- C2: a frame cut off a connection's buffer whose start line is not `GET`, a
target beginning with `/` and `HTTP/1.1` separated by single spaces, or one of
whose header lines has no `:` or an empty name before it, is answered with
exactly `ResponseBadRequest("HTTP/1.1")`: protocol HTTP/1.1, status 400 with
the text `Bad request`, the headers `Connection: close` and
`Content-Length: 0`, and an empty body; whatever the request object held. -/
theorem bad_frame_answered_400 (s : Server) (env : Env) (req : Request) (remaining : Str)
    (idx : Nat) (hi : Index remaining CRLFCRLF = some idx)
    (hb : (∀ l, (frameLines (remaining.take (idx + 2))).head? = some l → ¬ ValidStartLine l) ∨
      (∃ h ∈ (frameLines (remaining.take (idx + 2))).tail, BadHeaderLine h)) :
    (s.respond env req (remaining.take (idx + 2))).2 = ResponseBadRequest "HTTP/1.1".toList ∧
    ResponseBadRequest "HTTP/1.1".toList =
      { Proto := "HTTP/1.1".toList, StatusCode := 400, StatusText := "Bad request".toList,
        Headers := ⟨[("Connection".toList, "close".toList), ("Content-Length".toList, "0".toList)]⟩,
        Body := [] } := by
  refine ⟨?_, by decide⟩
  apply respond_of_error
  obtain ⟨l, hs, hl⟩ := List.exists_cons_of_ne_nil (frameLines_extracted_ne_nil hi)
  intro hnone
  have h1 := ((Parse_none_iff req _).mp hnone).1
  rw [hl] at hb h1
  refine parseLines_bad req l hs ?_ h1
  rcases hb with hb | hb
  · exact Or.inl (hb l (by simp))
  · exact Or.inr (by simpa using hb)

/-- C2 at a frame whose only header line, `bad`, has no colon. -/
theorem bad_frame_answered_400_witness :
    (testServer.respond testEnv Request.new
      ("GET / HTTP/1.1\r\nbad\r\n\r\nrest".toList.take (19 + 2))).2
      = ResponseBadRequest "HTTP/1.1".toList ∧
    ResponseBadRequest "HTTP/1.1".toList =
      { Proto := "HTTP/1.1".toList, StatusCode := 400, StatusText := "Bad request".toList,
        Headers := ⟨[("Connection".toList, "close".toList), ("Content-Length".toList, "0".toList)]⟩,
        Body := [] } :=
  bad_frame_answered_400 testServer testEnv Request.new "GET / HTTP/1.1\r\nbad\r\n\r\nrest".toList
    19 (by decide) (Or.inr ⟨"bad".toList, by decide, Or.inl (by decide)⟩)

/-! ## The response builder -/

theorem GoMap.find_insert (m : List (Str × Str)) (k v k2 : Str) :
    GoMap.find (GoMap.insert m k v) k2 = if k = k2 then some v else GoMap.find m k2 := by
  induction m with
  | nil => simp [GoMap.insert, GoMap.find]
  | cons e m ih =>
    obtain ⟨k1, v1⟩ := e
    simp only [GoMap.insert]
    by_cases h1 : k1 = k
    · subst h1
      by_cases h2 : k1 = k2 <;> simp [GoMap.find, h2]
    · simp only [h1, if_false, GoMap.find, ih]
      by_cases h2 : k1 = k2
      · subst h2
        simp [Ne.symm h1]
      · simp [h2]

theorem GoMap.get_set (m : GoMap) (k v k2 : Str) :
    (m.set k v).get k2 = if k = k2 then v else m.get k2 := by
  simp only [GoMap.get, GoMap.set, GoMap.find_insert]
  split <;> simp

/-- C7: whatever the protocol string, the location and the close flag, each
response constructor gives its fixed status pair (301 `Moved permanently`,
400 `Bad request`, 404 `Not found`, 500 `Internal Server Error`), the given
protocol, an empty body, a `Content-Length` header that is the decimal length
of the body, `0`, and a `Connection` header that is present, with the value
`close`, always for 400 and 500 and exactly when the close flag is set for 301
and 404; the 301 response also carries `Location` with the given location. -/
theorem constructors_fixed_shape (proto location : Str) (close : Bool) :
    ((ResponseMovedPermanently proto location close).Proto = proto ∧
      (ResponseMovedPermanently proto location close).StatusCode = 301 ∧
      (ResponseMovedPermanently proto location close).StatusText = "Moved permanently".toList ∧
      (ResponseMovedPermanently proto location close).Body = [] ∧
      GoMap.find (ResponseMovedPermanently proto location close).Headers.entries
          "Content-Length".toList
        = some (Sprint (ResponseMovedPermanently proto location close).Body.length) ∧
      GoMap.find (ResponseMovedPermanently proto location close).Headers.entries
          "Content-Length".toList = some "0".toList ∧
      GoMap.find (ResponseMovedPermanently proto location close).Headers.entries
          "Connection".toList = (if close then some "close".toList else none) ∧
      GoMap.find (ResponseMovedPermanently proto location close).Headers.entries
          "Location".toList = some location) ∧
    ((ResponseBadRequest proto).Proto = proto ∧
      (ResponseBadRequest proto).StatusCode = 400 ∧
      (ResponseBadRequest proto).StatusText = "Bad request".toList ∧
      (ResponseBadRequest proto).Body = [] ∧
      GoMap.find (ResponseBadRequest proto).Headers.entries "Content-Length".toList
        = some (Sprint (ResponseBadRequest proto).Body.length) ∧
      GoMap.find (ResponseBadRequest proto).Headers.entries "Content-Length".toList
        = some "0".toList ∧
      GoMap.find (ResponseBadRequest proto).Headers.entries "Connection".toList
        = some "close".toList) ∧
    ((ResponseNotFound proto close).Proto = proto ∧
      (ResponseNotFound proto close).StatusCode = 404 ∧
      (ResponseNotFound proto close).StatusText = "Not found".toList ∧
      (ResponseNotFound proto close).Body = [] ∧
      GoMap.find (ResponseNotFound proto close).Headers.entries "Content-Length".toList
        = some (Sprint (ResponseNotFound proto close).Body.length) ∧
      GoMap.find (ResponseNotFound proto close).Headers.entries "Content-Length".toList
        = some "0".toList ∧
      GoMap.find (ResponseNotFound proto close).Headers.entries "Connection".toList
        = (if close then some "close".toList else none)) ∧
    ((ResponseInternalServerError proto).Proto = proto ∧
      (ResponseInternalServerError proto).StatusCode = 500 ∧
      (ResponseInternalServerError proto).StatusText = "Internal Server Error".toList ∧
      (ResponseInternalServerError proto).Body = [] ∧
      GoMap.find (ResponseInternalServerError proto).Headers.entries "Content-Length".toList
        = some (Sprint (ResponseInternalServerError proto).Body.length) ∧
      GoMap.find (ResponseInternalServerError proto).Headers.entries "Content-Length".toList
        = some "0".toList ∧
      GoMap.find (ResponseInternalServerError proto).Headers.entries "Connection".toList
        = some "close".toList) := by
  have h0 : Sprint 0 = ['0'] := by decide
  refine ⟨?_, ?_, ?_, ?_⟩
  · cases close <;>
      simp [ResponseMovedPermanently, GoMap.set, GoMap.make, GoMap.find_insert, GoMap.find, h0,
        StatusMovedPermanently, StatusMovedPermanentlyText]
  · simp [ResponseBadRequest, GoMap.set, GoMap.make, GoMap.find_insert, GoMap.find, h0,
      StatusBadRequest, StatusBadRequestText]
  · cases close <;>
      simp [ResponseNotFound, GoMap.set, GoMap.make, GoMap.find_insert, GoMap.find, h0,
        StatusNotFound, StatusNotFoundText]
  · simp [ResponseInternalServerError, GoMap.set, GoMap.make, GoMap.find_insert, GoMap.find, h0,
      StatusInternalServerError, StatusInternalServerErrorText]

/-- The loop of `String` appends the header lines one after the other. -/
theorem String_foldl (order : List (Str × Str)) (h0 : Str) :
    order.foldl (fun h kv => h ++ (kv.1 ++ [':', ' '] ++ kv.2 ++ CRLF)) h0 =
      h0 ++ (order.map (fun kv => kv.1 ++ [':', ' '] ++ kv.2 ++ CRLF)).flatten := by
  induction order generalizing h0 with
  | nil => simp
  | cons e order ih =>
    rw [List.foldl_cons, ih, List.map_cons, List.flatten_cons, List.append_assoc]

/-- C8: for every response, and every order in which the iteration visits the
entries of its header map, `String()` is the status line
`Proto SP decimal-StatusCode SP StatusText CRLF`, then one line
`Name: Value CRLF` for each entry of `Headers` (each entry exactly once), then
one blank CRLF, then the body, with nothing after it. -/
theorem String_layout (resp : Response) (order : List (Str × Str))
    (h : order.Perm resp.Headers.entries) :
    resp.String order =
      resp.Proto ++ [' '] ++ Sprint resp.StatusCode ++ [' '] ++ resp.StatusText ++ CRLF ++
        (order.map (fun kv => kv.1 ++ [':', ' '] ++ kv.2 ++ CRLF)).flatten ++
        CRLF ++ resp.Body ∧
    (∀ kv, order.countP (fun e => decide (e = kv)) =
      resp.Headers.entries.countP (fun e => decide (e = kv))) ∧
    (∀ kv, kv ∈ order ↔ kv ∈ resp.Headers.entries) ∧
    order.length = resp.Headers.entries.length ∧
    resp.Body <:+ resp.String order := by
  refine ⟨?_, fun kv => h.countP_eq _, fun kv => h.mem_iff, h.length_eq, ?_⟩
  · simp only [Response.String, String_foldl]
  · simp only [Response.String]
    exact List.suffix_append _ _

/-- C8 at the 400 response, with `Content-Length` visited before `Connection`. -/
theorem String_layout_witness :
    (ResponseBadRequest "HTTP/1.1".toList).String
        [("Content-Length".toList, "0".toList), ("Connection".toList, "close".toList)] =
      "HTTP/1.1 400 Bad request\r\nContent-Length: 0\r\nConnection: close\r\n\r\n".toList :=
  ((String_layout (ResponseBadRequest "HTTP/1.1".toList)
      [("Content-Length".toList, "0".toList), ("Connection".toList, "close".toList)]
      (List.Perm.swap _ _ _)).1).trans (by decide)

/-- C9: a request whose Host is not a key of the virtual-host mapping is
answered by `handleGET` with the 404 response: the request's protocol, status
404 `Not found`, an empty body, `Content-Length: 0`, and a `Connection: close`
header exactly when the request asked for close. -/
theorem handleGET_unknown_host (s : Server) (env : Env) (req : Request)
    (h : GoMap.find s.VirtualHosts.entries req.Host = none) :
    s.handleGET env req = ResponseNotFound req.Proto req.Close ∧
    (s.handleGET env req).Proto = req.Proto ∧
    (s.handleGET env req).StatusCode = 404 ∧
    (s.handleGET env req).StatusText = "Not found".toList ∧
    (s.handleGET env req).Body = [] ∧
    GoMap.find (s.handleGET env req).Headers.entries "Content-Length".toList
      = some "0".toList ∧
    GoMap.find (s.handleGET env req).Headers.entries "Connection".toList
      = (if req.Close then some "close".toList else none) := by
  have h1 : s.handleGET env req = ResponseNotFound req.Proto req.Close := by
    simp [Server.handleGET, GoMap.get, h]
  have h0 : Sprint 0 = ['0'] := by decide
  rw [h1]
  refine ⟨rfl, ?_⟩
  cases req.Close <;>
    simp [ResponseNotFound, GoMap.set, GoMap.make, GoMap.find_insert, GoMap.find, h0,
      StatusNotFound, StatusNotFoundText]

/-- C9 at the frame of `Test404NotFound` with the host `not:a:good:host`. -/
theorem handleGET_unknown_host_witness :
    testServer.handleGET testEnv
        (Request.new.Parse "GET / HTTP/1.1\r\nhost:not:a:good:host\r\n".toList).1 =
      ResponseNotFound "HTTP/1.1".toList false :=
  (handleGET_unknown_host testServer testEnv
    (Request.new.Parse "GET / HTTP/1.1\r\nhost:not:a:good:host\r\n".toList).1 (by decide)).1

/-! ## The connection handler -/

theorem drop_length_lt_of_Index {buf : Str} {idx : Nat} (hi : Index buf CRLFCRLF = some idx) :
    (buf.drop (idx + 4)).length + 4 ≤ buf.length := by
  have hle := Index_some_le hi
  simp only [CRLFCRLF, List.length_cons, List.length_nil] at hle
  simp; omega

/-- With fuel at least the length of the buffer, `framesFuel` gives the frames
of the buffer. -/
theorem framesFuel_eq (fuel : Nat) (buf : Str) (hf : buf.length ≤ fuel) :
    framesFuel fuel buf = frames buf := by
  unfold frames
  induction fuel using Nat.strong_induction_on generalizing buf with
  | _ fuel ih =>
    cases fuel with
    | zero =>
      have : buf = [] := by simpa using hf
      subst this
      rfl
    | succ n =>
      cases hb : buf.length with
      | zero =>
        have : buf = [] := by simpa using hb
        subst this
        simp [framesFuel, Index_nil, CRLFCRLF, List.isPrefixOf]
      | succ m =>
        simp only [framesFuel]
        cases hi : Index buf CRLFCRLF with
        | none => rfl
        | some idx =>
          have hd := drop_length_lt_of_Index hi
          simp only
          rw [ih n (by omega) _ (by omega), ih m (by omega) _ (by omega)]

/-- The frames of a buffer, one step unfolded. -/
theorem frames_of_Index_some {buf : Str} {idx : Nat} (hi : Index buf CRLFCRLF = some idx) :
    frames buf = buf.take (idx + 2) :: frames (buf.drop (idx + 4)) := by
  have hd := drop_length_lt_of_Index hi
  conv_lhs => rw [← framesFuel_eq (buf.length + 1) buf (by omega)]
  simp only [framesFuel, hi]
  rw [framesFuel_eq _ _ (by omega)]

theorem frames_of_Index_none {buf : Str} (hi : Index buf CRLFCRLF = none) :
    frames buf = [] := by
  rw [← framesFuel_eq (buf.length + 1) buf (by omega)]
  simp only [framesFuel, hi]

/-- What the drain loop writes: the responses to the frames of the buffer, in
order, up to and including the first that carries `Connection: close`. -/
theorem drain_written (s : Server) (env : Env) (fuel : Nat) (req : Request) (buf : Str)
    (conn : Conn) (hf : buf.length ≤ fuel) :
    (s.drain env fuel req buf conn).2.2.written =
      conn.written ++ takeThrough Response.closes (s.responses env req (frames buf)) := by
  induction fuel generalizing req buf conn with
  | zero =>
    have : buf = [] := by simpa using hf
    subst this
    simp [Server.drain, frames, framesFuel, Server.responses, takeThrough]
  | succ n ih =>
    rw [Server.drain]
    cases hi : Index buf CRLFCRLF with
    | none => simp [frames_of_Index_none hi, Server.responses, takeThrough]
    | some idx =>
      have hd := drop_length_lt_of_Index hi
      simp only [frames_of_Index_some hi, Server.responses, takeThrough]
      by_cases hc : (s.respond env req (List.take (idx + 2) buf)).2.Headers.get
          "Connection".toList = "close".toList
      · have hc2 : (s.respond env req (List.take (idx + 2) buf)).2.closes = true := by
          simpa [Response.closes] using hc
        rw [if_pos hc, if_pos hc2]
        simp [Conn.Write, Conn.Close]
      · have hc2 : ¬ (s.respond env req (List.take (idx + 2) buf)).2.closes = true := by
          simpa [Response.closes] using hc
        rw [if_neg hc, if_neg hc2]
        rw [ih _ _ _ (by omega)]
        simp [Conn.Write]

theorem takeThrough_of_all_false {α : Type} (p : α → Bool) (l : List α)
    (h : ∀ a ∈ l, p a = false) : takeThrough p l = l := by
  induction l with
  | nil => rfl
  | cons a l ih =>
    simp only [takeThrough]
    rw [if_neg (by simp [h a (by simp)])]
    rw [ih (fun b hb => h b (by simp [hb]))]

theorem responses_length (s : Server) (env : Env) (req : Request) (fs : List Str) :
    (s.responses env req fs).length = fs.length := by
  induction fs generalizing req with
  | nil => rfl
  | cons f fs ih => simp [Server.responses, ih]

theorem serve_single_read (s : Server) (env : Env) (buf : Str) :
    (s.handleConnection env [.data buf]).written =
      (s.drain env buf.length Request.new buf ⟨[], false⟩).2.2.written := by
  simp [Server.handleConnection, Server.serve, Server.drain, Index_nil, CRLFCRLF, List.isPrefixOf]

set_option maxRecDepth 100000

/-- C3 (as amended): one drain of a receive buffer writes the responses to the
frames of the buffer in the order the frames appear, one per frame, up to and
including the first response that carries `Connection: close`; when no
response closes, that is exactly one response per frame. In particular two
complete frames delivered in one read, the first of which does not cause a
close, give two responses in frame order without another read. -/
theorem drain_responses_in_frame_order (s : Server) (env : Env) (req : Request) (buf : Str)
    (conn : Conn) :
    (s.drain env buf.length req buf conn).2.2.written =
      conn.written ++ takeThrough Response.closes (s.responses env req (frames buf)) ∧
    ((∀ r ∈ s.responses env req (frames buf), r.closes = false) →
      (s.drain env buf.length req buf conn).2.2.written =
        conn.written ++ s.responses env req (frames buf) ∧
      (s.drain env buf.length req buf conn).2.2.written.length =
        conn.written.length + (frames buf).length) ∧
    (∀ f1 f2, frames buf = [f1, f2] → (s.respond env Request.new f1).2.closes = false →
      (s.handleConnection env [.data buf]).written =
        [(s.respond env Request.new f1).2,
         (s.respond env (s.respond env Request.new f1).1 f2).2]) := by
  refine ⟨drain_written s env _ req buf conn (le_refl _), ?_, ?_⟩
  · intro h
    rw [drain_written s env _ req buf conn (le_refl _), takeThrough_of_all_false _ _ h]
    simp [responses_length]
  · intro f1 f2 hf hc
    rw [serve_single_read, drain_written s env _ _ buf _ (le_refl _), hf]
    simp [Server.responses, takeThrough, hc]

/-- C3 at the two frames of `Test200OK404NotFound`, delivered in one read. -/
theorem drain_responses_in_frame_order_witness :
    (testServer.handleConnection testEnv
      [.data ("GET / HTTP/1.1\r\nhost: website1\r\n\r\n" ++
        "GET /notfound HTTP/1.1\r\nhost:website1\r\nconnection: close\r\n\r\n").toList]).written.map
        (fun r => r.StatusCode) = [200, 404] :=
  (congrArg (List.map (fun r => r.StatusCode))
    ((drain_responses_in_frame_order testServer testEnv Request.new
      ("GET / HTTP/1.1\r\nhost: website1\r\n\r\n" ++
        "GET /notfound HTTP/1.1\r\nhost:website1\r\nconnection: close\r\n\r\n").toList
      ⟨[], false⟩).2.2
      "GET / HTTP/1.1\r\nhost: website1\r\n".toList
      "GET /notfound HTTP/1.1\r\nhost:website1\r\nconnection: close\r\n".toList
      (by decide) (by decide))).trans (by decide)

/-- C3 as stated fails: this buffer holds two frames, the first is answered
with the closing 400 response, and the drain writes one response, not two. -/
theorem drain_not_one_response_per_frame :
    (frames "GET / HTTP/1.0\r\n\r\nGET / HTTP/1.1\r\nHost: website1\r\n\r\n".toList).length = 2 ∧
    (testServer.drain testEnv
      "GET / HTTP/1.0\r\n\r\nGET / HTTP/1.1\r\nHost: website1\r\n\r\n".toList.length Request.new
      "GET / HTTP/1.0\r\n\r\nGET / HTTP/1.1\r\nHost: website1\r\n\r\n".toList ⟨[], false⟩).2.2.written
      = [ResponseBadRequest "HTTP/1.1".toList] := by
  decide

/-- After the drain loop, started on an open connection on which no closing
response was written, either the connection is still open and no closing
response was written, or it is closed and only the last response written can
be a closing one. -/
theorem drain_close_last (s : Server) (env : Env) (fuel : Nat) (req : Request) (buf : Str)
    (conn : Conn) (ho : conn.closed = false) (hw : ∀ r ∈ conn.written, r.closes = false) :
    ((s.drain env fuel req buf conn).2.2.closed = false ∧
      ∀ r ∈ (s.drain env fuel req buf conn).2.2.written, r.closes = false) ∨
    ((s.drain env fuel req buf conn).2.2.closed = true ∧
      ∀ r ∈ (s.drain env fuel req buf conn).2.2.written.dropLast, r.closes = false) := by
  induction fuel generalizing req buf conn with
  | zero => exact Or.inl ⟨ho, hw⟩
  | succ n ih =>
    rw [Server.drain]
    cases hi : Index buf CRLFCRLF with
    | none => exact Or.inl ⟨ho, hw⟩
    | some idx =>
      simp only
      by_cases hc : (s.respond env req (List.take (idx + 2) buf)).2.Headers.get
          "Connection".toList = "close".toList
      · rw [if_pos hc]
        refine Or.inr ⟨rfl, ?_⟩
        simpa [Conn.Write, Conn.Close] using hw
      · rw [if_neg hc]
        apply ih
        · exact ho
        · intro r hr
          simp only [Conn.Write, List.mem_append, List.mem_singleton] at hr
          rcases hr with hr | rfl
          · exact hw r hr
          · simpa [Response.closes] using hc

/-- On every run of the outer loop from an open connection on which no closing
response was written, a closing response can only be the last one written,
and once it is written the connection is closed. -/
theorem serve_close_last (s : Server) (env : Env) (reads : List ReadResult) (req : Request)
    (buf : Str) (conn : Conn) (ho : conn.closed = false)
    (hw : ∀ r ∈ conn.written, r.closes = false) :
    (∀ r ∈ (s.serve env reads req buf conn).written.dropLast, r.closes = false) ∧
    ((s.serve env reads req buf conn).closed = false →
      ∀ r ∈ (s.serve env reads req buf conn).written, r.closes = false) := by
  induction reads generalizing req buf conn with
  | nil =>
    rw [Server.serve]
    rcases drain_close_last s env buf.length req buf conn ho hw with h | h
    · exact ⟨fun r hr => h.2 r (List.dropLast_subset _ hr), fun _ => h.2⟩
    · exact ⟨h.2, fun hc => by rw [h.1] at hc; cases hc⟩
  | cons rd reads ih =>
    rw [Server.serve]
    have hd := drain_close_last s env buf.length req buf conn ho hw
    rcases hdr : s.drain env buf.length req buf conn with ⟨req1, rem1, conn1⟩
    rw [hdr] at hd
    simp only at hd ⊢
    rcases hd with h | h
    · rw [if_neg (by simp [h.1])]
      cases rd with
      | data bytes => exact ih _ _ _ h.1 h.2
      | eof =>
        exact ⟨fun r hr => h.2 r (List.dropLast_subset _ hr), fun hc => by simp [Conn.Close] at hc⟩
      | timeout =>
        simp only
        split
        · refine ⟨?_, fun hc => by simp [Conn.Close] at hc⟩
          simpa [Conn.Write, Conn.Close] using h.2
        · exact ⟨fun r hr => h.2 r (List.dropLast_subset _ hr),
            fun hc => by simp [Conn.Close] at hc⟩
      | other =>
        exact ⟨fun r hr => h.2 r (List.dropLast_subset _ hr), fun hc => by simp [Conn.Close] at hc⟩
    · rw [if_pos h.1]
      exact ⟨h.2, fun hc => by rw [h.1] at hc; cases hc⟩

/-- C4: on a connection, for every sequence of read results, a response whose
`Connection` header equals `close` is the last response written, and the
server has closed the connection: nothing is written after it, whatever the
receive buffer still holds and whatever later reads would give. -/
theorem nothing_written_after_close (s : Server) (env : Env) (reads : List ReadResult)
    (pre post : List Response) (r : Response)
    (hw : (s.handleConnection env reads).written = pre ++ r :: post)
    (hc : r.Headers.get "Connection".toList = "close".toList) :
    post = [] ∧ (s.handleConnection env reads).closed = true := by
  have hcl : r.closes = true := by simpa [Response.closes] using hc
  have h := serve_close_last s env reads Request.new [] ⟨[], false⟩ rfl (by simp)
  unfold Server.handleConnection at hw ⊢
  rw [hw] at h
  have hp : post = [] := by
    by_contra hne
    have hmem : r ∈ (pre ++ r :: post).dropLast := by
      obtain ⟨b, l, rfl⟩ := List.exists_cons_of_ne_nil hne
      rw [show pre ++ r :: b :: l = (pre ++ [r]) ++ (b :: l) by simp,
        List.dropLast_append_of_ne_nil _ (by simp)]
      simp
    have := h.1 r hmem
    rw [hcl] at this
    cases this
  refine ⟨hp, ?_⟩
  by_contra hne
  have hcf : (s.serve env reads Request.new [] ⟨[], false⟩).closed = false := by
    simpa using hne
  have := h.2 hcf r (by simp)
  rw [hcl] at this
  cases this

/-- C4 at a connection whose first frame is malformed: the 400 response is the
only one written and the connection is closed, whatever is read later. -/
theorem nothing_written_after_close_witness :
    ([] : List Response) = [] ∧
    (testServer.handleConnection testEnv
      [.data "GET / HTTP/1.0\r\n\r\nGET / HTTP/1.1\r\nHost: website1\r\n\r\n".toList,
       .data "GET / HTTP/1.1\r\nHost: website1\r\n\r\n".toList]).closed = true :=
  nothing_written_after_close testServer testEnv
    [.data "GET / HTTP/1.0\r\n\r\nGET / HTTP/1.1\r\nHost: website1\r\n\r\n".toList,
     .data "GET / HTTP/1.1\r\nHost: website1\r\n\r\n".toList]
    [] [] (ResponseBadRequest "HTTP/1.1".toList) (by decide) (by decide)

/-- C5: when the read that follows a drain times out on the open connection,
the handler closes the connection, and it writes the 400 `Bad request`
response (which carries `Connection: close`) if and only if the buffer of
unconsumed bytes is not empty; with an empty buffer it writes nothing. -/
theorem timeout_writes_400_iff_buffer_nonempty (s : Server) (env : Env)
    (reads : List ReadResult) (req req1 : Request) (remaining rem1 : Str) (conn conn1 : Conn)
    (hd : s.drain env remaining.length req remaining conn = (req1, rem1, conn1))
    (ho : conn1.closed = false) :
    (s.serve env (.timeout :: reads) req remaining conn).closed = true ∧
    ((s.serve env (.timeout :: reads) req remaining conn).written =
        conn1.written ++ [ResponseBadRequest "HTTP/1.1".toList] ↔ rem1 ≠ []) ∧
    ((s.serve env (.timeout :: reads) req remaining conn).written = conn1.written ↔
        rem1 = []) ∧
    (ResponseBadRequest "HTTP/1.1".toList).StatusCode = 400 ∧
    (ResponseBadRequest "HTTP/1.1".toList).Headers.get "Connection".toList = "close".toList := by
  rw [Server.serve, hd]
  simp only [ho, Bool.false_eq_true, if_false]
  by_cases hr : rem1 = []
  · subst hr
    simp [Conn.Close]
    decide
  · simp [hr, Conn.Close, Conn.Write]
    decide

/-- C5 at the scenario of `TestTimeout`: a start line with no terminator, then
a timeout. -/
theorem timeout_writes_400_iff_buffer_nonempty_witness :
    (testServer.handleConnection testEnv [.data "GET / HTTP/1.1".toList, .timeout]).written =
      [ResponseBadRequest "HTTP/1.1".toList] :=
  ((timeout_writes_400_iff_buffer_nonempty testServer testEnv [] Request.new Request.new
    "GET / HTTP/1.1".toList "GET / HTTP/1.1".toList ⟨[], false⟩ ⟨[], false⟩
    (by decide) rfl).2.1).mpr (by decide)

/-! ## Requests, the file system and `handleGET` -/

/-- A header line leaves the method, the URL and the protocol untouched. -/
theorem parseHeaderLine_start_fields (req : Request) (h : Str) :
    (req.parseHeaderLine h).1.Method = req.Method ∧
    (req.parseHeaderLine h).1.URL = req.URL ∧
    (req.parseHeaderLine h).1.Proto = req.Proto := by
  unfold Request.parseHeaderLine
  split
  rename_i key value found heq
  split
  · exact ⟨rfl, rfl, rfl⟩
  · dsimp only
    split
    · exact ⟨rfl, rfl, rfl⟩
    · split
      · split <;> exact ⟨rfl, rfl, rfl⟩
      · exact ⟨rfl, rfl, rfl⟩

theorem parseLines_start_fields (req : Request) (lineCount : Nat) (hs : List Str)
    (hl : 1 ≤ lineCount) :
    (req.parseLines lineCount hs).1.Method = req.Method ∧
    (req.parseLines lineCount hs).1.URL = req.URL ∧
    (req.parseLines lineCount hs).1.Proto = req.Proto := by
  induction hs generalizing req lineCount with
  | nil => exact ⟨rfl, rfl, rfl⟩
  | cons l ls ih =>
    rw [Request.parseLines]
    have hlc : ¬ (lineCount + 1 = 1) := by omega
    simp only [hlc, if_false]
    have h1 := parseHeaderLine_start_fields req l
    cases hr : (req.parseHeaderLine l).2 with
    | some e => exact h1
    | none =>
      simp only
      have h2 := ih (req.parseHeaderLine l).1 (lineCount + 1) (by omega)
      exact ⟨h2.1.trans h1.1, h2.2.1.trans h1.2.1, h2.2.2.trans h1.2.2⟩

/-- After a successful `Parse` of a frame with a start line, the method is
`GET`, the protocol is `HTTP/1.1` and the URL is the normalised target. -/
theorem Parse_start_fields {req0 req : Request} {frame l : Str} {hs : List Str} {m t p : Str}
    (hp : req0.Parse frame = (req, none)) (hl : frameLines frame = l :: hs)
    (hsp : Split l ' ' = [m, t, p]) :
    req.Method = "GET".toList ∧ req.URL = normalizeURL t ∧ req.Proto = "HTTP/1.1".toList := by
  have h1 : (req0.Parse frame).1 = req := by rw [hp]
  have h2 : (req0.Parse frame).2 = none := by rw [hp]
  rw [Parse_fst, hl] at h1
  have h3 := ((Parse_none_iff req0 frame).mp h2).1
  rw [hl] at h3
  rw [Request.parseLines] at h1 h3
  simp only [Nat.zero_add, if_true] at h1 h3
  cases hr : (req0.parseStartLine l).2 with
  | some e => rw [hr] at h3; simp at h3
  | none =>
    rw [hr] at h1
    simp only at h1
    obtain ⟨t2, hs2, _, hreq⟩ := parseStartLine_none hr
    rw [hsp] at hs2
    simp only [List.cons.injEq, and_true] at hs2
    obtain ⟨_, rfl, _⟩ := hs2
    have h4 := parseLines_start_fields (req0.parseStartLine l).1 1 hs (le_refl _)
    rw [h1, hreq] at h4
    exact h4

/-- The 301 response carries the location it was given. -/
theorem ResponseMovedPermanently_location (proto location : Str) (close : Bool) :
    GoMap.find (ResponseMovedPermanently proto location close).Headers.entries
      "Location".toList = some location := by
  cases close <;>
    simp [ResponseMovedPermanently, GoMap.set, GoMap.make, GoMap.find_insert, GoMap.find]

/-- C10 (as amended): for every frame that `Parse` accepts, with target `t` on
its start line, whose host has a document root, whose resolved path (the root
joined with the parsed URL, cleaned) passes the containment check and is a
directory, the response is 301 `Moved permanently` with a `Location` header
equal to the parsed URL followed by `/`; the parsed URL is `t`, with
`index.html` appended when `t` ends with `/`. So a target that does not end
with `/` gives `Location` equal to the target plus a single trailing `/`. -/
theorem directory_redirect (s : Server) (env : Env) (req0 req : Request) (frame l : Str)
    (hs : List Str) (m t p : Str) (fileInfo : FileInfo)
    (hp : req0.Parse frame = (req, none)) (hl : frameLines frame = l :: hs)
    (hsp : Split l ' ' = [m, t, p])
    (hroot : s.VirtualHosts.get req.Host ≠ [])
    (hin : Contains (Clean (Join (s.VirtualHosts.get req.Host) req.URL))
      (s.VirtualHosts.get req.Host) = true)
    (hst : env.Stat (Clean (Join (s.VirtualHosts.get req.Host) req.URL)) = some fileInfo)
    (hdir : fileInfo.IsDir = true) :
    (s.respond env req0 frame).2 =
      ResponseMovedPermanently req.Proto (normalizeURL t ++ ['/']) req.Close ∧
    (s.respond env req0 frame).2.StatusCode = 301 ∧
    (s.respond env req0 frame).2.StatusText = "Moved permanently".toList ∧
    GoMap.find (s.respond env req0 frame).2.Headers.entries "Location".toList =
      some (normalizeURL t ++ ['/']) ∧
    (HasSuffix t ['/'] = false →
      GoMap.find (s.respond env req0 frame).2.Headers.entries "Location".toList =
        some (t ++ ['/'])) := by
  obtain ⟨hm, hu, _⟩ := Parse_start_fields hp hl hsp
  have h1 : (s.respond env req0 frame).2 =
      ResponseMovedPermanently req.Proto (normalizeURL t ++ ['/']) req.Close := by
    unfold Server.respond
    rw [hp]
    simp only [hm, if_true]
    unfold Server.handleGET
    simp only [hroot, if_false, hin, Bool.not_true, Bool.false_eq_true, hst, hdir, if_true]
    rw [hu]
  have h2 := ResponseMovedPermanently_location req.Proto (normalizeURL t ++ ['/']) req.Close
  rw [h1]
  refine ⟨rfl, rfl, rfl, h2, ?_⟩
  intro hsuf
  rw [h2]
  simp [normalizeURL, hsuf]

/-- C10 at the frame of `Test301MovedPermanently`: the target `/example` gives
the location `/example/`. -/
theorem directory_redirect_witness :
    GoMap.find (testServer.respond testEnv Request.new
        "GET /example HTTP/1.1\r\nHost: website2\r\nconnection: close\r\n".toList).2.Headers.entries
      "Location".toList = some "/example/".toList :=
  (directory_redirect testServer testEnv Request.new
    (Request.new.Parse
      "GET /example HTTP/1.1\r\nHost: website2\r\nconnection: close\r\n".toList).1
    "GET /example HTTP/1.1\r\nHost: website2\r\nconnection: close\r\n".toList
    "GET /example HTTP/1.1".toList ["Host: website2".toList, "connection: close".toList]
    "GET".toList "/example".toList "HTTP/1.1".toList
    ⟨true, 4096, "Mon, 02 Jan 2006 15:04:05 UTC".toList⟩
    (by decide) (by decide) (by decide) (by decide) (by decide) (by decide) rfl).2.2.2.2
    (by decide)

/-- C10 as stated fails. With `cmd/demo/example/index.html` a directory, the
target `/` resolves to that directory and the `Location` is `/index.html/`, not
the target plus `/`. And the target `/..` on host `website1` resolves to the
directory `cmd/demo`, which fails the containment check: the response is 404. -/
theorem directory_redirect_counterexample :
    (dirEnv.Stat (Clean (Join "cmd/demo/example".toList "/index.html".toList))).map
        (fun i => i.IsDir) = some true ∧
    (testServer.respond dirEnv Request.new "GET / HTTP/1.1\r\nHost: website1\r\n".toList).2 =
      ResponseMovedPermanently "HTTP/1.1".toList "/index.html/".toList false ∧
    GoMap.find (testServer.respond dirEnv Request.new
        "GET / HTTP/1.1\r\nHost: website1\r\n".toList).2.Headers.entries "Location".toList ≠
      some ("/".toList ++ ['/']) ∧
    (testEnv.Stat (Clean (Join "cmd/demo/example".toList "/..".toList))).map
        (fun i => i.IsDir) = some true ∧
    (testServer.respond testEnv Request.new "GET /.. HTTP/1.1\r\nHost: website1\r\n".toList).2 =
      ResponseNotFound "HTTP/1.1".toList false := by
  decide

theorem ResponseNotFound_connection (proto : Str) (close : Bool) :
    (ResponseNotFound proto close).Headers.get "Connection".toList =
      if close then "close".toList else [] := by
  cases close <;> simp [ResponseNotFound, GoMap.get_set, GoMap.make, GoMap.get, GoMap.find]

theorem ResponseMovedPermanently_connection (proto location : Str) (close : Bool) :
    (ResponseMovedPermanently proto location close).Headers.get "Connection".toList =
      if close then "close".toList else [] := by
  cases close <;>
    simp [ResponseMovedPermanently, GoMap.get_set, GoMap.make, GoMap.get, GoMap.find]

/-- Whether `handleGET` asks to close: exactly when the request does. -/
theorem handleGET_connection (s : Server) (env : Env) (req : Request) :
    (s.handleGET env req).Headers.get "Connection".toList =
      if req.Close then "close".toList else [] := by
  unfold Server.handleGET
  dsimp only
  by_cases h1 : s.VirtualHosts.get req.Host = []
  · simp only [h1, if_true]
    exact ResponseNotFound_connection _ _
  · simp only [h1, if_false]
    by_cases h2 : Contains (Clean (Join (s.VirtualHosts.get req.Host) req.URL))
        (s.VirtualHosts.get req.Host) = true
    · simp only [h2, Bool.not_true, Bool.false_eq_true, if_false]
      cases h3 : env.Stat (Clean (Join (s.VirtualHosts.get req.Host) req.URL)) with
      | none => exact ResponseNotFound_connection _ _
      | some fileInfo =>
        simp only
        by_cases h4 : fileInfo.IsDir = true
        · simp only [h4, if_true]
          exact ResponseMovedPermanently_connection _ _ _
        · simp only [h4, if_false]
          cases req.Close <;> simp [GoMap.get_set, GoMap.make, GoMap.get, GoMap.find]
    · simp only [h2, Bool.not_false, if_true]
      exact ResponseNotFound_connection _ _

/-- The status `handleGET` answers with is 200, 301 or 404. -/
theorem handleGET_status (s : Server) (env : Env) (req : Request) :
    (s.handleGET env req).StatusCode = 200 ∨ (s.handleGET env req).StatusCode = 301 ∨
      (s.handleGET env req).StatusCode = 404 := by
  unfold Server.handleGET
  dsimp only
  by_cases h1 : s.VirtualHosts.get req.Host = []
  · simp only [h1, if_true]
    exact Or.inr (Or.inr rfl)
  · simp only [h1, if_false]
    by_cases h2 : Contains (Clean (Join (s.VirtualHosts.get req.Host) req.URL))
        (s.VirtualHosts.get req.Host) = true
    · simp only [h2, Bool.not_true, Bool.false_eq_true, if_false]
      cases h3 : env.Stat (Clean (Join (s.VirtualHosts.get req.Host) req.URL)) with
      | none => exact Or.inr (Or.inr rfl)
      | some fileInfo =>
        simp only
        by_cases h4 : fileInfo.IsDir = true
        · simp only [h4, if_true]
          exact Or.inr (Or.inl rfl)
        · simp only [h4, if_false]
          exact Or.inl rfl
    · simp only [h2, Bool.not_false, if_true]
      exact Or.inr (Or.inr rfl)

/-- C1, the code at the failing input: one read delivers a valid frame with
`Host: website1` and then the frame `GET / HTTP/1.1` with no Host header at
all. Whatever the server and the file system, the second frame is answered
like the first, from the host left in the request object, with a status that
is not 400; the same frame alone on a fresh connection gets the 400. -/
theorem missing_host_after_valid_frame (s : Server) (env : Env) :
    frames "GET / HTTP/1.1\r\nHost: website1\r\n\r\nGET / HTTP/1.1\r\n\r\n".toList =
      ["GET / HTTP/1.1\r\nHost: website1\r\n".toList, "GET / HTTP/1.1\r\n".toList] ∧
    frameLines "GET / HTTP/1.1\r\n".toList = ["GET / HTTP/1.1".toList] ∧
    (s.handleConnection env
      [.data "GET / HTTP/1.1\r\nHost: website1\r\n\r\nGET / HTTP/1.1\r\n\r\n".toList]).written =
      [s.handleGET env website1Request, s.handleGET env website1Request] ∧
    (s.handleGET env website1Request).StatusCode ≠ 400 ∧
    (s.handleConnection env [.data "GET / HTTP/1.1\r\n\r\n".toList]).written =
      [ResponseBadRequest "HTTP/1.1".toList] := by
  have hf : frames "GET / HTTP/1.1\r\nHost: website1\r\n\r\nGET / HTTP/1.1\r\n\r\n".toList =
      ["GET / HTTP/1.1\r\nHost: website1\r\n".toList, "GET / HTTP/1.1\r\n".toList] := by decide
  have hp1 : Request.new.Parse "GET / HTTP/1.1\r\nHost: website1\r\n".toList =
      (website1Request, none) := by decide
  have hp2 : website1Request.Parse "GET / HTTP/1.1\r\n".toList = (website1Request, none) := by
    decide
  have hp3 : (Request.new.Parse "GET / HTTP/1.1\r\n".toList).2 ≠ none := by decide
  have hm : website1Request.Method = "GET".toList := rfl
  have hr1 : s.respond env Request.new "GET / HTTP/1.1\r\nHost: website1\r\n".toList =
      (website1Request, s.handleGET env website1Request) := by
    unfold Server.respond
    rw [hp1]
    simp only [hm, if_true]
  have hr2 : s.respond env website1Request "GET / HTTP/1.1\r\n".toList =
      (website1Request, s.handleGET env website1Request) := by
    unfold Server.respond
    rw [hp2]
    simp only [hm, if_true]
  have hc : (s.handleGET env website1Request).closes = false := by
    have := handleGET_connection s env website1Request
    simp only [Response.closes, this]
    decide
  refine ⟨hf, by decide, ?_, ?_, ?_⟩
  · rw [serve_single_read, drain_written s env _ _ _ _ (le_refl _), hf]
    simp only [Server.responses, takeThrough, hr1, hr2, hc, Bool.false_eq_true, if_false,
      List.nil_append, ite_self]
  · rcases handleGET_status s env website1Request with h | h | h <;> rw [h] <;> decide
  · have hf3 : frames "GET / HTTP/1.1\r\n\r\n".toList = ["GET / HTTP/1.1\r\n".toList] := by decide
    rw [serve_single_read, drain_written s env _ _ _ _ (le_refl _), hf3]
    simp only [Server.responses, takeThrough, respond_of_error s env _ _ hp3, List.nil_append,
      ite_self]

/-- C6, the code at the failing input: the document root of `website1` is
`cmd/demo/example`; the target `/../example-private/key` resolves to
`cmd/demo/example-private/key`, which is outside the root, and `handleGET`
serves the file with status 200. -/
theorem sibling_directory_served :
    (Request.new.Parse
      "GET /../example-private/key HTTP/1.1\r\nHost: website1\r\n".toList).2 = none ∧
    testServer.VirtualHosts.get "website1".toList = "cmd/demo/example".toList ∧
    Clean (Join "cmd/demo/example".toList "/../example-private/key".toList) =
      "cmd/demo/example-private/key".toList ∧
    withinRoot "cmd/demo/example".toList "cmd/demo/example-private/key".toList = false ∧
    (testServer.handleGET siblingEnv (Request.new.Parse
      "GET /../example-private/key HTTP/1.1\r\nHost: website1\r\n".toList).1).StatusCode = 200 ∧
    (testServer.handleGET siblingEnv (Request.new.Parse
      "GET /../example-private/key HTTP/1.1\r\nHost: website1\r\n".toList).1).Body
      = "secret".toList ∧
    ((testServer.handleConnection siblingEnv
      [.data "GET /../example-private/key HTTP/1.1\r\nHost: website1\r\n\r\n".toList]).written.map
        (fun r => r.StatusCode)) = [200] := by
  decide

/-! ## Fuel

The loops that carry fuel have finished when the fuel is the length of their
input; see also `parseLoop_eq_parseLines` and `framesFuel_eq`. -/

/-- One more unit of fuel than the length of the unread path changes nothing:
the loop of `Clean` has finished by then. -/
theorem cleanLoop_fuel (fuel : Nat) (rooted : Bool) (path out : Str) (dotdot : Nat)
    (h : path.length ≤ fuel) :
    cleanLoop (fuel + 1) rooted path out dotdot = cleanLoop fuel rooted path out dotdot := by
  induction fuel generalizing path out dotdot with
  | zero =>
    have : path = [] := by simpa using h
    subst this
    simp [cleanLoop]
  | succ n ih =>
    cases path with
    | nil => simp [cleanLoop]
    | cons c rest =>
      have hr : rest.length ≤ n := by simpa using h
      have ht : rest.tail.length ≤ n := by simp; omega
      conv_lhs => rw [cleanLoop]
      conv_rhs => rw [cleanLoop]
      by_cases h1 : c = '/'
      · simp only [h1, if_true, fun o d => ih rest o d hr]
      · have hd : ((c :: rest).dropWhile (fun x => x != '/')).length ≤ n := by
          have : List.dropWhile (fun x => x != '/') (c :: rest) =
              List.dropWhile (fun x => x != '/') rest := by
            rw [List.dropWhile_cons]
            simp [h1]
          rw [this]
          exact le_trans (List.dropWhile_sublist _).length_le hr
        simp only [fun o d => ih rest o d hr, fun o d => ih rest.tail o d ht,
          fun o d => ih _ o d hd]

/-- With fuel at least the length of the buffer, the drain loop does what it
does with fuel equal to the length. -/
theorem drain_fuel (s : Server) (env : Env) (fuel : Nat) (req : Request) (buf : Str)
    (conn : Conn) (hf : buf.length ≤ fuel) :
    s.drain env fuel req buf conn = s.drain env buf.length req buf conn := by
  induction fuel using Nat.strong_induction_on generalizing req buf conn with
  | _ fuel ih =>
    cases fuel with
    | zero =>
      have : buf = [] := by simpa using hf
      subst this
      rfl
    | succ n =>
      cases hb : buf.length with
      | zero =>
        have : buf = [] := by simpa using hb
        subst this
        simp [Server.drain, Index_nil, CRLFCRLF, List.isPrefixOf]
      | succ m =>
        simp only [Server.drain]
        cases hi : Index buf CRLFCRLF with
        | none => rfl
        | some idx =>
          have hd := drop_length_lt_of_Index hi
          simp only
          split
          · rfl
          · rw [ih n (by omega) _ _ _ (by omega), ih m (by omega) _ _ _ (by omega)]

/-! ## Header names and letter case -/

theorem isUpper_iff (a : Char) : a.isUpper = true ↔ 65 ≤ a.toNat ∧ a.toNat ≤ 90 := by
  simp only [Char.isUpper, UInt32.le_def, BitVec.le_def, Bool.and_eq_true, decide_eq_true_eq,
    ge_iff_le]
  exact Iff.rfl

theorem isLower_iff (a : Char) : a.isLower = true ↔ 97 ≤ a.toNat ∧ a.toNat ≤ 122 := by
  simp only [Char.isLower, UInt32.le_def, BitVec.le_def, Bool.and_eq_true, decide_eq_true_eq,
    ge_iff_le]
  exact Iff.rfl

theorem toLower_of_not_isUpper {a : Char} (h : ¬ a.isUpper = true) : a.toLower = a := by
  rw [isUpper_iff] at h
  simp only [Char.toLower, ge_iff_le]
  rw [if_neg h]

/-- The letter-case step changes at most the case of the byte. -/
theorem canonStep_toLower (upper : Bool) (a : Char) :
    (canonStep upper a).toLower = a.toLower := by
  by_cases hu : a.isUpper = true
  · obtain ⟨h1, h2⟩ := (isUpper_iff a).mp hu
    have ha : a = Char.ofNat a.toNat := (Char.ofNat_toNat a).symm
    generalize a.toNat = n at h1 h2 ha
    subst ha
    interval_cases n <;> cases upper <;> decide
  · by_cases hl : a.isLower = true
    · obtain ⟨h1, h2⟩ := (isLower_iff a).mp hl
      have ha : a = Char.ofNat a.toNat := (Char.ofNat_toNat a).symm
      generalize a.toNat = n at h1 h2 ha
      subst ha
      interval_cases n <;> cases upper <;> decide
    · simp [canonStep, hu, hl]

/-- The letter-case step does not look at the case of the byte. -/
theorem canonStep_of_toLower (upper : Bool) (a : Char) :
    canonStep upper a.toLower = canonStep upper a := by
  by_cases hu : a.isUpper = true
  · obtain ⟨h1, h2⟩ := (isUpper_iff a).mp hu
    have ha : a = Char.ofNat a.toNat := (Char.ofNat_toNat a).symm
    generalize a.toNat = n at h1 h2 ha
    subst ha
    interval_cases n <;> cases upper <;> decide
  · rw [toLower_of_not_isUpper hu]

/-- Whether a byte is a token byte does not depend on its case. -/
theorem validHeaderFieldByte_toLower (a : Char) :
    validHeaderFieldByte a.toLower = validHeaderFieldByte a := by
  by_cases hu : a.isUpper = true
  · obtain ⟨h1, h2⟩ := (isUpper_iff a).mp hu
    have ha : a = Char.ofNat a.toNat := (Char.ofNat_toNat a).symm
    generalize a.toNat = n at h1 h2 ha
    subst ha
    interval_cases n <;> decide
  · rw [toLower_of_not_isUpper hu]

theorem canonicalMIMEHeaderKey_cons (upper : Bool) (c : Char) (cs : Str) :
    canonicalMIMEHeaderKey upper (c :: cs) =
      canonStep upper c :: canonicalMIMEHeaderKey (canonStep upper c == '-') cs := rfl

theorem canonicalMIMEHeaderKey_map_toLower (upper : Bool) (k : Str) :
    (canonicalMIMEHeaderKey upper k).map Char.toLower = k.map Char.toLower := by
  induction k generalizing upper with
  | nil => rfl
  | cons c cs ih =>
    rw [canonicalMIMEHeaderKey_cons, List.map_cons, List.map_cons, ih, canonStep_toLower]

theorem canonicalMIMEHeaderKey_of_map_toLower (upper : Bool) (k : Str) :
    canonicalMIMEHeaderKey upper (k.map Char.toLower) = canonicalMIMEHeaderKey upper k := by
  induction k generalizing upper with
  | nil => rfl
  | cons c cs ih =>
    rw [List.map_cons, canonicalMIMEHeaderKey_cons, canonicalMIMEHeaderKey_cons,
      canonStep_of_toLower, ih]

theorem all_valid_map_toLower (k : Str) :
    (k.map Char.toLower).all validHeaderFieldByte = k.all validHeaderFieldByte := by
  induction k with
  | nil => rfl
  | cons c cs ih =>
    simp only [List.map_cons, List.all_cons, ih, validHeaderFieldByte_toLower]

/-- A key is canonicalised to the canonical token `name` exactly when it equals
`name` ignoring case. -/
theorem CanonicalMIMEHeaderKey_eq_iff (k name : Str)
    (hv : name.all validHeaderFieldByte = true)
    (hc : canonicalMIMEHeaderKey true (name.map Char.toLower) = name) :
    CanonicalMIMEHeaderKey k = name ↔ eqIgnoreCase k name = true := by
  simp only [eqIgnoreCase, decide_eq_true_eq]
  constructor
  · intro h
    unfold CanonicalMIMEHeaderKey at h
    split at h
    · rw [← h, canonicalMIMEHeaderKey_map_toLower]
    · rw [h]
  · intro h
    have hk : k.all validHeaderFieldByte = true := by
      rw [← all_valid_map_toLower, h, all_valid_map_toLower, hv]
    unfold CanonicalMIMEHeaderKey
    rw [if_pos hk, ← canonicalMIMEHeaderKey_of_map_toLower, h, hc]

theorem CanonicalMIMEHeaderKey_eq_Host (k : Str) :
    CanonicalMIMEHeaderKey k = "Host".toList ↔ eqIgnoreCase k "Host".toList = true :=
  CanonicalMIMEHeaderKey_eq_iff k _ (by decide) (by decide)

theorem CanonicalMIMEHeaderKey_eq_Connection (k : Str) :
    CanonicalMIMEHeaderKey k = "Connection".toList ↔
      eqIgnoreCase k "Connection".toList = true :=
  CanonicalMIMEHeaderKey_eq_iff k _ (by decide) (by decide)

/-! ## Header lines -/

/-- Where `Index` finds a byte: after the longest run of other bytes. -/
theorem Index_singleton_of_mem {s : Str} {c : Char} (h : c ∈ s) :
    ∃ i, Index s [c] = some i ∧ s.take i = s.takeWhile (fun x => x != c) ∧
      s.drop (i + 1) = (s.dropWhile (fun x => x != c)).tail := by
  induction s with
  | nil => simp at h
  | cons a t ih =>
    by_cases hac : a = c
    · subst hac
      exact ⟨0, Index_singleton_head t a, by simp, by simp⟩
    · have hm : c ∈ t := by
        simp only [List.mem_cons] at h
        rcases h with h | h
        · exact absurd h.symm hac
        · exact h
      obtain ⟨i, hi, ht, hd⟩ := ih hm
      refine ⟨i + 1, ?_, ?_, ?_⟩
      · rw [Index_cons]
        have : List.isPrefixOf [c] (a :: t) = false := by
          simp [List.isPrefixOf, Ne.symm hac]
        simp [this, hi]
      · simp [List.takeWhile_cons, hac, ht]
      · simp [List.dropWhile_cons, hac, hd]

/-- `Cut` at the first colon of a line that has one. -/
theorem Cut_colon {h : Str} (hc : ':' ∈ h) :
    Cut h [':'] = (headerName h, (h.dropWhile (fun c => c != ':')).tail, true) := by
  obtain ⟨i, hi, ht, hd⟩ := Index_singleton_of_mem hc
  simp only [Cut, hi, List.length_singleton, ht, hd, headerName]

theorem headerName_ne_nil {h : Str} (hb : ¬ BadHeaderLine h) : headerName h ≠ [] := by
  cases h with
  | nil => exact absurd (Or.inl (by simp)) hb
  | cons a t =>
    have : a ≠ ':' := by
      intro ha
      exact hb (Or.inr (by simp [ha]))
    simp [headerName, List.takeWhile_cons, this]

/-- What the loop body of `Parse` does with a header line that has a colon and
a name before it. -/
theorem parseHeaderLine_good (req : Request) {h : Str} (hb : ¬ BadHeaderLine h) :
    req.parseHeaderLine h =
      (if eqIgnoreCase (headerName h) "Host".toList then { req with Host := headerValue h }
       else if eqIgnoreCase (headerName h) "Connection".toList then
         { req with Close := decide (headerValue h = "close".toList) }
       else { req with Headers := storeHeader req.Headers h }, none) := by
  have hc : ':' ∈ h := by
    by_contra hn
    exact hb (Or.inl hn)
  have hn := headerName_ne_nil hb
  unfold Request.parseHeaderLine
  rw [Cut_colon hc]
  simp only [Bool.not_true, Bool.false_or, decide_eq_true_eq, hn, if_false]
  by_cases h1 : eqIgnoreCase (headerName h) "Host".toList = true
  · rw [if_pos ((CanonicalMIMEHeaderKey_eq_Host _).mpr h1), if_pos h1]
    rfl
  · rw [if_neg (fun hh => h1 ((CanonicalMIMEHeaderKey_eq_Host _).mp hh)), if_neg h1]
    by_cases h2 : eqIgnoreCase (headerName h) "Connection".toList = true
    · rw [if_pos ((CanonicalMIMEHeaderKey_eq_Connection _).mpr h2), if_pos h2]
      by_cases h3 : headerValue h = "close".toList
      · have h3b : Trim (h.dropWhile (fun c => c != ':')).tail [' '] = "close".toList := h3
        rw [if_pos h3b, decide_eq_true h3]
      · have h3b : ¬ Trim (h.dropWhile (fun c => c != ':')).tail [' '] = "close".toList := h3
        rw [if_neg h3b, decide_eq_false h3]
    · rw [if_neg (fun hh => h2 ((CanonicalMIMEHeaderKey_eq_Connection _).mp hh)), if_neg h2]
      rw [storeHeader, if_neg h1, if_neg h2]
      rfl

theorem not_Host_and_Connection {k : Str} (h1 : eqIgnoreCase k "Host".toList = true)
    (h2 : eqIgnoreCase k "Connection".toList = true) : False := by
  simp only [eqIgnoreCase, decide_eq_true_eq] at h1 h2
  rw [h1] at h2
  exact absurd h2 (by decide)

/-- The fields of the request after a good header line. -/
theorem parseHeaderLine_fields (req : Request) {h : Str} (hb : ¬ BadHeaderLine h) :
    (req.parseHeaderLine h).2 = none ∧
    (req.parseHeaderLine h).1.Host =
      (if eqIgnoreCase (headerName h) "Host".toList then headerValue h else req.Host) ∧
    (req.parseHeaderLine h).1.Close =
      (if eqIgnoreCase (headerName h) "Connection".toList then
        decide (headerValue h = "close".toList) else req.Close) ∧
    (req.parseHeaderLine h).1.Headers = storeHeader req.Headers h ∧
    (req.parseHeaderLine h).1.Body = req.Body := by
  rw [parseHeaderLine_good req hb]
  by_cases h1 : eqIgnoreCase (headerName h) "Host".toList = true
  · have h2 : ¬ eqIgnoreCase (headerName h) "Connection".toList = true :=
      fun h2 => not_Host_and_Connection h1 h2
    rw [if_pos h1]
    refine ⟨rfl, ?_, ?_, ?_, rfl⟩
    · rw [if_pos h1]
    · rw [if_neg h2]
    · rw [storeHeader, if_pos h1]
  · rw [if_neg h1]
    by_cases h2 : eqIgnoreCase (headerName h) "Connection".toList = true
    · rw [if_pos h2]
      refine ⟨rfl, ?_, ?_, ?_, rfl⟩
      · rw [if_neg h1]
      · rw [if_pos h2]
      · rw [storeHeader, if_neg h1, if_pos h2]
    · rw [if_neg h2]
      refine ⟨rfl, ?_, ?_, rfl, rfl⟩
      · rw [if_neg h1]
      · rw [if_neg h2]

theorem getLast?_filter_cons {α : Type} (p : α → Bool) (a : α) (l : List α) :
    ((a :: l).filter p).getLast? =
      if p a then some ((l.filter p).getLast?.getD a) else (l.filter p).getLast? := by
  by_cases h : p a = true
  · simp [h, List.getLast?_cons]
  · simp [h]

/-- The header lines of a frame, none of them bad, are all accepted; the host
is the value of the last `Host` line, the close flag is set by the last
`Connection` line, the other lines are stored in the header map in order, and
nothing else changes. -/
theorem parseLines_good (req : Request) (lineCount : Nat) (hs : List Str)
    (hl : 1 ≤ lineCount) (hg : ∀ h ∈ hs, ¬ BadHeaderLine h) :
    (req.parseLines lineCount hs).2 = none ∧
    (req.parseLines lineCount hs).1.Host =
      ((lastHeaderLine "Host".toList hs).map headerValue).getD req.Host ∧
    (req.parseLines lineCount hs).1.Close =
      ((lastHeaderLine "Connection".toList hs).map
        (fun h => decide (headerValue h = "close".toList))).getD req.Close ∧
    (req.parseLines lineCount hs).1.Headers = hs.foldl storeHeader req.Headers ∧
    (req.parseLines lineCount hs).1.Body = req.Body := by
  induction hs generalizing req lineCount with
  | nil => simp [Request.parseLines, lastHeaderLine]
  | cons h hs ih =>
    have hb : ¬ BadHeaderLine h := hg h (by simp)
    have hg2 : ∀ x ∈ hs, ¬ BadHeaderLine x := fun x hx => hg x (by simp [hx])
    obtain ⟨f1, f2, f3, f4, f5⟩ := parseHeaderLine_fields req hb
    obtain ⟨i1, i2, i3, i4, i5⟩ := ih (req.parseHeaderLine h).1 (lineCount + 1) (by omega) hg2
    have hlc : ¬ (lineCount + 1 = 1) := by omega
    have hstep : req.parseLines lineCount (h :: hs) =
        (req.parseHeaderLine h).1.parseLines (lineCount + 1) hs := by
      rw [Request.parseLines]
      simp only [hlc, if_false, f1]
    rw [hstep]
    refine ⟨i1, ?_, ?_, ?_, ?_⟩
    · rw [i2, f2]
      simp only [lastHeaderLine, getLast?_filter_cons]
      by_cases h1 : eqIgnoreCase (headerName h) "Host".toList = true
      · rw [if_pos h1, if_pos h1]
        cases (hs.filter (fun h => eqIgnoreCase (headerName h) "Host".toList)).getLast? <;> rfl
      · rw [if_neg h1, if_neg h1]
    · rw [i3, f3]
      simp only [lastHeaderLine, getLast?_filter_cons]
      by_cases h2 : eqIgnoreCase (headerName h) "Connection".toList = true
      · rw [if_pos h2, if_pos h2]
        cases (hs.filter (fun h => eqIgnoreCase (headerName h) "Connection".toList)).getLast?
          <;> rfl
      · rw [if_neg h2, if_neg h2]
    · rw [i4, f4, List.foldl_cons]
    · rw [i5, f5]

/-! ## Accepted frames -/

theorem Split_of_not_mem {a : Str} {c : Char} (h : c ∉ a) : Split a c = [a] := by
  induction a with
  | nil => rfl
  | cons x a ih =>
    simp only [List.mem_cons, not_or] at h
    rw [Split, if_neg (Ne.symm h.1), ih h.2]

theorem Split_append_cons {a : Str} {c : Char} (rest : Str) (h : c ∉ a) :
    Split (a ++ c :: rest) c = a :: Split rest c := by
  induction a with
  | nil => simp [Split]
  | cons x a ih =>
    simp only [List.mem_cons, not_or] at h
    rw [List.cons_append, Split, if_neg (Ne.symm h.1), ih h.2]

/-- A valid start line splits into `GET`, its target and `HTTP/1.1`. -/
theorem Split_of_ValidStartLine {l t : Str} (ht : ' ' ∉ t)
    (hl : l = "GET ".toList ++ t ++ " HTTP/1.1".toList) :
    Split l ' ' = ["GET".toList, t, "HTTP/1.1".toList] := by
  have h1 : l = "GET".toList ++ ' ' :: (t ++ ' ' :: "HTTP/1.1".toList) := by
    rw [hl]; simp
  rw [h1, Split_append_cons _ (by decide), Split_append_cons _ ht,
    Split_of_not_mem (by decide)]

/-- What the loop body of `Parse` does with a valid start line. -/
theorem parseStartLine_valid (req : Request) {l t : Str} (h0 : t.head? = some '/')
    (ht : ' ' ∉ t) (hl : l = "GET ".toList ++ t ++ " HTTP/1.1".toList) :
    req.parseStartLine l =
      ({ req with Method := "GET".toList, URL := normalizeURL t, Proto := "HTTP/1.1".toList },
        none) := by
  have hp : HasPrefix t ['/'] = true := by
    cases t with
    | nil => simp at h0
    | cons a t =>
      simp only [List.head?_cons, Option.some.injEq] at h0
      subst h0
      simp [HasPrefix, List.isPrefixOf]
  unfold Request.parseStartLine
  rw [Split_of_ValidStartLine ht hl]
  simp only [if_true, hp, Bool.not_true, Bool.false_eq_true, if_false, ne_eq, not_true_eq_false]
  by_cases h3 : HasSuffix t ['/'] = true
  · simp only [normalizeURL, h3, if_true]
  · simp only [normalizeURL, h3, Bool.false_eq_true, if_false]

/-- The target of a start line accepted by `Parse` is what stands between
`GET ` and ` HTTP/1.1`. -/
theorem target_unique {l t t2 : Str} (hl : l = "GET ".toList ++ t ++ " HTTP/1.1".toList)
    (hs : Split l ' ' = ["GET".toList, t2, "HTTP/1.1".toList]) : t2 = t := by
  have h := Split_intercalate l ' '
  rw [hs, hl] at h
  simp only [List.intercalate, List.intersperse, List.flatten, List.append_assoc,
    List.append_nil] at h
  have h2 : "GET ".toList ++ (t2 ++ " HTTP/1.1".toList) =
      "GET ".toList ++ (t ++ " HTTP/1.1".toList) := by
    rw [← h]; simp
  exact List.append_cancel_right (List.append_cancel_left h2)

/-- Everything `Parse` has checked and stored when it returns no error on a
string with at least one line. -/
theorem Parse_accepted {req0 req : Request} {frame l : Str} {hs : List Str}
    (hp : req0.Parse frame = (req, none)) (hl : frameLines frame = l :: hs) :
    ∃ t, Split l ' ' = ["GET".toList, t, "HTTP/1.1".toList] ∧ HasPrefix t ['/'] = true ∧
      (∀ h ∈ hs, ¬ BadHeaderLine h) ∧
      req.Method = "GET".toList ∧ req.URL = normalizeURL t ∧ req.Proto = "HTTP/1.1".toList ∧
      req.Host = ((lastHeaderLine "Host".toList hs).map headerValue).getD req0.Host ∧
      req.Close = ((lastHeaderLine "Connection".toList hs).map
        (fun h => decide (headerValue h = "close".toList))).getD req0.Close ∧
      req.Headers = hs.foldl storeHeader req0.Headers ∧
      req.Body = req0.Body ∧ req.Host ≠ [] ∧ (splitCRLF frame).getLast? = some [] := by
  have h1 : (req0.Parse frame).1 = req := by rw [hp]
  have h2 : (req0.Parse frame).2 = none := by rw [hp]
  rw [Parse_fst, hl] at h1
  obtain ⟨h3, h4, h5⟩ := (Parse_none_iff req0 frame).mp h2
  rw [hl] at h3 h4
  rw [h1] at h4
  rw [Request.parseLines] at h1 h3
  simp only [Nat.zero_add, if_true] at h1 h3
  cases hr : (req0.parseStartLine l).2 with
  | some e => rw [hr] at h3; simp at h3
  | none =>
    rw [hr] at h1 h3
    simp only at h1 h3
    obtain ⟨t, hs2, hpre, hreq⟩ := parseStartLine_none hr
    have hg : ∀ h ∈ hs, ¬ BadHeaderLine h := by
      intro h hm hb
      exact parseLines_bad_header _ 1 hs (le_refl _) ⟨h, hm, hb⟩ h3
    obtain ⟨_, g2, g3, g4, g5⟩ := parseLines_good (req0.parseStartLine l).1 1 hs (le_refl _) hg
    obtain ⟨f1, f2, f3⟩ := parseLines_start_fields (req0.parseStartLine l).1 1 hs (le_refl _)
    rw [h1] at g2 g3 g4 g5 f1 f2 f3
    rw [hreq] at g2 g3 g4 g5 f1 f2 f3
    exact ⟨t, hs2, hpre, hg, f1, f2, f3, g2, g3, g4, g5, h4, h5⟩

/-- When `Parse` returns no error on a fresh request, the string has a first
line. -/
theorem frameLines_ne_nil_of_Parse_new {req : Request} {frame : Str}
    (hp : Request.new.Parse frame = (req, none)) : frameLines frame ≠ [] := by
  intro hn
  have h2 : (Request.new.Parse frame).2 = none := by rw [hp]
  obtain ⟨_, h4, _⟩ := (Parse_none_iff Request.new frame).mp h2
  rw [hn] at h4
  exact h4 rfl

/-- Sufficient conditions for `Parse` to return no error, and what it stores. -/
theorem Parse_accepts (req0 : Request) {frame l t : Str} {hs : List Str}
    (hl : frameLines frame = l :: hs) (hend : (splitCRLF frame).getLast? = some [])
    (h0 : t.head? = some '/') (ht : ' ' ∉ t)
    (hline : l = "GET ".toList ++ t ++ " HTTP/1.1".toList)
    (hg : ∀ h ∈ hs, ¬ BadHeaderLine h)
    (hhost : ((lastHeaderLine "Host".toList hs).map headerValue).getD req0.Host ≠ []) :
    (req0.Parse frame).2 = none ∧
    (req0.Parse frame).1.Method = "GET".toList ∧
    (req0.Parse frame).1.URL = normalizeURL t ∧
    (req0.Parse frame).1.Proto = "HTTP/1.1".toList ∧
    (req0.Parse frame).1.Host =
      ((lastHeaderLine "Host".toList hs).map headerValue).getD req0.Host := by
  have hstart := parseStartLine_valid req0 h0 ht hline
  have hs2 : (req0.parseStartLine l).2 = none := by rw [hstart]
  have hpl : req0.parseLines 0 (l :: hs) = (req0.parseStartLine l).1.parseLines 1 hs := by
    rw [Request.parseLines]
    simp only [Nat.zero_add, if_true, hs2]
  obtain ⟨g1, g2, _, _, _⟩ := parseLines_good (req0.parseStartLine l).1 1 hs (le_refl _) hg
  obtain ⟨f1, f2, f3⟩ := parseLines_start_fields (req0.parseStartLine l).1 1 hs (le_refl _)
  have e1 : (req0.parseStartLine l).1.Method = "GET".toList := by rw [hstart]
  have e2 : (req0.parseStartLine l).1.URL = normalizeURL t := by rw [hstart]
  have e3 : (req0.parseStartLine l).1.Proto = "HTTP/1.1".toList := by rw [hstart]
  have e4 : (req0.parseStartLine l).1.Host = req0.Host := by rw [hstart]
  rw [e4] at g2
  have hnone : (req0.Parse frame).2 = none := by
    rw [Parse_none_iff, hl, hpl]
    exact ⟨g1, by rw [g2]; exact hhost, hend⟩
  rw [Parse_fst, hl, hpl]
  exact ⟨hnone, f1.trans e1, f2.trans e2, f3.trans e3, g2⟩

/-- A string that ends with CRLF has nothing after its last CRLF. -/
theorem splitCRLF_append_CRLF (a : Str) :
    ∃ init, init ≠ [] ∧ splitCRLF (a ++ CRLF) = init ++ [[]] := by
  induction a using splitCRLF.induct with
  | case1 => exact ⟨[[]], by simp, by simp [splitCRLF, CRLF]⟩
  | case2 c =>
    refine ⟨[[c]], by simp, ?_⟩
    simp [splitCRLF, CRLF]
  | case3 c d rest hc ih =>
    obtain ⟨init, _, hi⟩ := ih
    refine ⟨[] :: init, by simp, ?_⟩
    simp only [List.cons_append, splitCRLF, hc, and_self, if_true, List.append_eq, hi]
  | case4 c d rest hc heq => exact absurd heq (splitCRLF_ne_nil _)
  | case5 c d rest hc x t heq ih =>
    obtain ⟨init, hne, hi⟩ := ih
    obtain ⟨b, init2, rfl⟩ := List.exists_cons_of_ne_nil hne
    refine ⟨(c :: b) :: init2, by simp, ?_⟩
    simp only [List.cons_append] at hi ⊢
    rw [splitCRLF, if_neg hc, hi]

theorem getLast?_splitCRLF_append_CRLF (a : Str) :
    (splitCRLF (a ++ CRLF)).getLast? = some [] := by
  obtain ⟨init, _, hi⟩ := splitCRLF_append_CRLF a
  rw [hi]
  simp

/-! ## The contract of `Parse` -/

/-- An error of the loop of `Parse` is the error `Parse` returns. -/
theorem Parse_error_of_parseLines {req : Request} {s : Str} {e : InvalidRequestError}
    (h : (req.parseLines 0 (frameLines s)).2 = some e) : (req.Parse s).2 = some e := by
  have hl := parseLoop_eq_parseLines s.length req s 0 (le_refl _)
  rw [← hl.2.1] at h
  unfold Request.Parse
  split
  · rename_i r1 rem e1 heq
    rw [heq] at h
    exact h
  · rename_i r1 rem heq
    rw [heq] at h
    cases h

theorem HasSuffix_singleton (t : Str) (c : Char) :
    HasSuffix t [c] = true ↔ t.getLast? = some c := by
  unfold HasSuffix List.isSuffixOf
  rw [← List.head?_reverse]
  cases t.reverse with
  | nil => simp [List.isPrefixOf]
  | cons a r =>
    simp only [List.isPrefixOf, Bool.and_true, beq_iff_eq, List.head?_cons, Option.some.injEq]
    exact eq_comm

/-- The last header line named `name` is the one after which no line is named
`name`. -/
theorem lastHeaderLine_eq_some_iff (name : Str) (hs : List Str) (h : Str) :
    lastHeaderLine name hs = some h ↔
      ∃ pre post, hs = pre ++ h :: post ∧ eqIgnoreCase (headerName h) name = true ∧
        ∀ x ∈ post, eqIgnoreCase (headerName x) name = false := by
  constructor
  · intro hl
    induction hs with
    | nil => simp [lastHeaderLine] at hl
    | cons x rest ih =>
      unfold lastHeaderLine at hl ih
      rw [getLast?_filter_cons] at hl
      cases hr : (rest.filter (fun h => eqIgnoreCase (headerName h) name)).getLast? with
      | some h2 =>
        rw [hr] at hl ih
        have : h2 = h := by
          split at hl
          · simpa using hl
          · simpa using hl
        subst this
        obtain ⟨pre, post, he, hp, hq⟩ := ih rfl
        exact ⟨x :: pre, post, by rw [he]; rfl, hp, hq⟩
      | none =>
        rw [hr] at hl
        split at hl
        · rename_i hx
          simp only [Option.getD_none, Option.some.injEq] at hl
          subst hl
          refine ⟨[], rest, rfl, hx, ?_⟩
          intro y hy
          have hnil : rest.filter (fun h => eqIgnoreCase (headerName h) name) = [] := by
            simpa using hr
          by_contra hc
          have : y ∈ rest.filter (fun h => eqIgnoreCase (headerName h) name) := by
            simp only [List.mem_filter]
            exact ⟨hy, by simpa using hc⟩
          rw [hnil] at this
          cases this
        · cases hl
  · rintro ⟨pre, post, rfl, hp, hq⟩
    unfold lastHeaderLine
    have hpost : post.filter (fun h => eqIgnoreCase (headerName h) name) = [] := by
      rw [List.filter_eq_nil_iff]
      intro x hx
      simp [hq x hx]
    rw [List.filter_append, List.filter_cons, if_pos hp, hpost]
    simp

/-- C11 (as amended): given the frame the connection handler hands over, that
is a valid start line and zero or more valid header lines, each followed by
CRLF, with nothing after the last CRLF (the terminating blank line is not part
of it), where the last `Host` line has a non-empty value, `Parse` on a fresh
request returns no error and produces the request: method `GET`, the
normalised target, `HTTP/1.1` and the host. -/
theorem parse_accepts_valid_frame (frame a l t host : Str) (hs : List Str)
    (hframe : frame = a ++ CRLF) (hl : frameLines frame = l :: hs)
    (h0 : t.head? = some '/') (ht : ' ' ∉ t)
    (hline : l = "GET ".toList ++ t ++ " HTTP/1.1".toList)
    (hg : ∀ h ∈ hs, ¬ BadHeaderLine h)
    (hh : lastHeaderLine "Host".toList hs = some host) (hne : headerValue host ≠ []) :
    (Request.new.Parse frame).2 = none ∧
    (Request.new.Parse frame).1.Method = "GET".toList ∧
    (Request.new.Parse frame).1.URL = normalizeURL t ∧
    (Request.new.Parse frame).1.Proto = "HTTP/1.1".toList ∧
    (Request.new.Parse frame).1.Host = headerValue host := by
  have hend : (splitCRLF frame).getLast? = some [] := by
    rw [hframe]
    exact getLast?_splitCRLF_append_CRLF a
  have hhost : ((lastHeaderLine "Host".toList hs).map headerValue).getD Request.new.Host ≠ [] := by
    rw [hh]
    exact hne
  have h := Parse_accepts Request.new hl hend h0 ht hline hg hhost
  rw [hh] at h
  exact h

/-- C11 at the frame cut off the buffer `GET / HTTP/1.1`, `Host: website1`,
blank line. -/
theorem parse_accepts_valid_frame_witness :
    frames "GET / HTTP/1.1\r\nHost: website1\r\n\r\n".toList =
      ["GET / HTTP/1.1\r\nHost: website1\r\n".toList] ∧
    (Request.new.Parse "GET / HTTP/1.1\r\nHost: website1\r\n".toList).2 = none :=
  ⟨by decide,
    (parse_accepts_valid_frame "GET / HTTP/1.1\r\nHost: website1\r\n".toList
      "GET / HTTP/1.1\r\nHost: website1".toList "GET / HTTP/1.1".toList "/".toList
      "Host: website1".toList ["Host: website1".toList] (by decide) (by decide) (by decide)
      (by decide) (by decide) (by decide) (by decide) (by decide)).1⟩

/-- C11 as stated fails: on the complete frame with its terminating blank line,
a string that ends in CRLF CRLF, `Parse` reads the blank line as a header line
and fails with `invalid header: `. -/
theorem parse_rejects_blank_line :
    (Request.new.Parse "GET / HTTP/1.1\r\nHost: website1\r\n\r\n".toList).2 =
      some ⟨"GET".toList, "/index.html".toList, "invalid header: ".toList⟩ := by
  decide

/-- C13: for every frame that `Parse` accepts, with the target `t` on its
start line, the URL of the request is `t` followed by `index.html` when `t`
ends with `/`, and is `t` otherwise; it is a function of `t` alone. -/
theorem url_is_normalized_target (req0 req : Request) (frame l t : Str) (hs : List Str)
    (hp : req0.Parse frame = (req, none)) (hl : frameLines frame = l :: hs)
    (hline : l = "GET ".toList ++ t ++ " HTTP/1.1".toList) :
    req.URL = normalizeURL t ∧
    (t.getLast? = some '/' → req.URL = t ++ "index.html".toList) ∧
    (t.getLast? ≠ some '/' → req.URL = t) := by
  obtain ⟨t2, hs2, _, _, _, hu, _⟩ := Parse_accepted hp hl
  have := target_unique hline hs2
  subst this
  refine ⟨hu, ?_, ?_⟩
  · intro h
    rw [hu, normalizeURL, if_pos ((HasSuffix_singleton _ _).mpr h)]
  · intro h
    rw [hu, normalizeURL, if_neg (fun hh => h ((HasSuffix_singleton _ _).mp hh))]

/-- C13 at the targets `/` and `/example`. -/
theorem url_is_normalized_target_witness :
    (Request.new.Parse "GET / HTTP/1.1\r\nHost: website1\r\n".toList).1.URL =
      "/index.html".toList ∧
    (Request.new.Parse "GET /example HTTP/1.1\r\nHost: website2\r\n".toList).1.URL =
      "/example".toList :=
  ⟨(url_is_normalized_target Request.new
      (Request.new.Parse "GET / HTTP/1.1\r\nHost: website1\r\n".toList).1
      "GET / HTTP/1.1\r\nHost: website1\r\n".toList "GET / HTTP/1.1".toList "/".toList
      ["Host: website1".toList] (by decide) (by decide) (by decide)).2.1 (by decide),
   (url_is_normalized_target Request.new
      (Request.new.Parse "GET /example HTTP/1.1\r\nHost: website2\r\n".toList).1
      "GET /example HTTP/1.1\r\nHost: website2\r\n".toList "GET /example HTTP/1.1".toList
      "/example".toList ["Host: website2".toList] (by decide) (by decide) (by decide)).2.2
      (by decide)⟩

/-- C14: for every accepted frame, the host of the request is the text after
the first `:` of the last header line whose name equals `Host` ignoring
letter case, with the leading and trailing spaces removed. -/
theorem host_is_last_host_header (req0 req : Request) (frame l h : Str) (hs pre post : List Str)
    (hp : req0.Parse frame = (req, none)) (hl : frameLines frame = l :: hs)
    (hsplit : hs = pre ++ h :: post)
    (hname : eqIgnoreCase (h.takeWhile (fun c => c != ':')) "Host".toList = true)
    (hlast : ∀ x ∈ post, eqIgnoreCase (x.takeWhile (fun c => c != ':')) "Host".toList = false) :
    req.Host = Trim (h.dropWhile (fun c => c != ':')).tail [' '] := by
  obtain ⟨_, _, _, _, _, _, _, hhost, _⟩ := Parse_accepted hp hl
  have hlh : lastHeaderLine "Host".toList hs = some h :=
    (lastHeaderLine_eq_some_iff _ _ _).mpr ⟨pre, post, hsplit, hname, hlast⟩
  rw [hhost, hlh]
  rfl

/-- C14 at the header lines `host:website1` and `host:not:a:good:host`. -/
theorem host_is_last_host_header_witness :
    (Request.new.Parse "GET / HTTP/1.1\r\nHOST: a\r\nhost:website1\r\n".toList).1.Host =
      "website1".toList ∧
    (Request.new.Parse "GET / HTTP/1.1\r\nhost:not:a:good:host\r\n".toList).1.Host =
      "not:a:good:host".toList :=
  ⟨(host_is_last_host_header Request.new
      (Request.new.Parse "GET / HTTP/1.1\r\nHOST: a\r\nhost:website1\r\n".toList).1
      "GET / HTTP/1.1\r\nHOST: a\r\nhost:website1\r\n".toList "GET / HTTP/1.1".toList
      "host:website1".toList ["HOST: a".toList, "host:website1".toList] ["HOST: a".toList] []
      (by decide) (by decide) (by decide) (by decide) (by decide)).trans (by decide),
   (host_is_last_host_header Request.new
      (Request.new.Parse "GET / HTTP/1.1\r\nhost:not:a:good:host\r\n".toList).1
      "GET / HTTP/1.1\r\nhost:not:a:good:host\r\n".toList "GET / HTTP/1.1".toList
      "host:not:a:good:host".toList ["host:not:a:good:host".toList] [] []
      (by decide) (by decide) (by decide) (by decide) (by decide)).trans (by decide)⟩

/-- C15: for every frame that `Parse` accepts on a fresh request, the close
flag is true if and only if the frame has a `Connection` header line (name
matched ignoring case) and the value of the last one, spaces trimmed, is
exactly `close`. -/
theorem close_iff_last_connection_close (req : Request) (frame l : Str) (hs : List Str)
    (hp : Request.new.Parse frame = (req, none)) (hl : frameLines frame = l :: hs) :
    req.Close = true ↔
      ∃ pre h post, hs = pre ++ h :: post ∧
        eqIgnoreCase (h.takeWhile (fun c => c != ':')) "Connection".toList = true ∧
        (∀ x ∈ post,
          eqIgnoreCase (x.takeWhile (fun c => c != ':')) "Connection".toList = false) ∧
        Trim (h.dropWhile (fun c => c != ':')).tail [' '] = "close".toList := by
  obtain ⟨_, _, _, _, _, _, _, _, hclose, _⟩ := Parse_accepted hp hl
  rw [hclose]
  constructor
  · intro hc
    cases hlh : lastHeaderLine "Connection".toList hs with
    | none =>
      rw [hlh] at hc
      cases hc
    | some h =>
      rw [hlh] at hc
      obtain ⟨pre, post, he, hn, hq⟩ := (lastHeaderLine_eq_some_iff _ _ _).mp hlh
      refine ⟨pre, h, post, he, hn, hq, ?_⟩
      have : headerValue h = "close".toList := of_decide_eq_true hc
      exact this
  · rintro ⟨pre, h, post, he, hn, hq, hv⟩
    have hlh : lastHeaderLine "Connection".toList hs = some h :=
      (lastHeaderLine_eq_some_iff _ _ _).mpr ⟨pre, post, he, hn, hq⟩
    rw [hlh]
    exact decide_eq_true hv

/-- C15 at the second frame of `Test200OK404NotFound`, whose only `Connection`
line is `connection: close`. -/
theorem close_iff_last_connection_close_witness :
    (Request.new.Parse
      "GET /notfound HTTP/1.1\r\nhost:website1\r\nconnection: close\r\n".toList).1.Close = true :=
  (close_iff_last_connection_close
    (Request.new.Parse
      "GET /notfound HTTP/1.1\r\nhost:website1\r\nconnection: close\r\n".toList).1
    "GET /notfound HTTP/1.1\r\nhost:website1\r\nconnection: close\r\n".toList
    "GET /notfound HTTP/1.1".toList
    ["host:website1".toList, "connection: close".toList] (by decide) (by decide)).mpr
    ⟨["host:website1".toList], "connection: close".toList, [], by decide, by decide,
      by decide, by decide⟩

/-- What `Parse` returns when its first line fails. -/
theorem Parse_of_start_error {req : Request} {frame l : Str} {hs : List Str}
    {e : InvalidRequestError} (hl : frameLines frame = l :: hs)
    (he : (req.parseStartLine l).2 = some e) : (req.Parse frame).2 = some e := by
  apply Parse_error_of_parseLines
  rw [hl, Request.parseLines]
  simp only [Nat.zero_add, if_true, he]

/-- C16: for every start line made of the three tokens `m`, `t`, `p`: if `m`
is not exactly `GET`, `Parse` fails with the description `unsupported method`;
otherwise, if `t` does not start with `/`, it fails with the description
`invalid URL`; otherwise, if `p` is not exactly `HTTP/1.1`, it fails with the
description `p`. The checks are made in that order. -/
theorem start_line_checks_in_order (req : Request) (frame l m t p : Str) (hs : List Str)
    (hl : frameLines frame = l :: hs) (hsp : Split l ' ' = [m, t, p]) :
    (m ≠ "GET".toList →
      ∃ e, (req.Parse frame).2 = some e ∧ e.Description = "unsupported method".toList) ∧
    (m = "GET".toList → HasPrefix t ['/'] = false →
      ∃ e, (req.Parse frame).2 = some e ∧ e.Description = "invalid URL".toList) ∧
    (m = "GET".toList → HasPrefix t ['/'] = true → p ≠ "HTTP/1.1".toList →
      ∃ e, (req.Parse frame).2 = some e ∧ e.Description = p) := by
  refine ⟨?_, ?_, ?_⟩
  · intro hm
    refine ⟨⟨req.Method, req.URL, "unsupported method".toList⟩, ?_, rfl⟩
    apply Parse_of_start_error hl
    unfold Request.parseStartLine
    rw [hsp]
    simp only [if_neg hm]
  · intro hm ht
    refine ⟨⟨"GET".toList, t, "invalid URL".toList⟩, ?_, rfl⟩
    apply Parse_of_start_error hl
    unfold Request.parseStartLine
    rw [hsp]
    simp only [if_pos hm, ht, Bool.not_false, if_true]
  · intro hm ht hpr
    refine ⟨⟨"GET".toList, normalizeURL t, p⟩, ?_, rfl⟩
    apply Parse_of_start_error hl
    unfold Request.parseStartLine
    rw [hsp]
    simp only [if_pos hm, ht, Bool.not_true, Bool.false_eq_true, if_false, ne_eq, hpr,
      not_false_eq_true, if_true]
    by_cases h3 : HasSuffix t ['/'] = true
    · simp only [normalizeURL, h3, if_true]
    · simp only [normalizeURL, h3, Bool.false_eq_true, if_false]

/-- C16 at the start lines `POST / HTTP/1.1`, `GET index.html HTTP/1.1` and
`GET / HTTP/1.0`. -/
theorem start_line_checks_in_order_witness :
    (∃ e, (Request.new.Parse "POST / HTTP/1.1\r\nHost: a\r\n".toList).2 = some e ∧
      e.Description = "unsupported method".toList) ∧
    (∃ e, (Request.new.Parse "GET index.html HTTP/1.1\r\nHost: a\r\n".toList).2 = some e ∧
      e.Description = "invalid URL".toList) ∧
    (∃ e, (Request.new.Parse "GET / HTTP/1.0\r\nHost: a\r\n".toList).2 = some e ∧
      e.Description = "HTTP/1.0".toList) :=
  ⟨(start_line_checks_in_order Request.new "POST / HTTP/1.1\r\nHost: a\r\n".toList
      "POST / HTTP/1.1".toList "POST".toList "/".toList "HTTP/1.1".toList ["Host: a".toList]
      (by decide) (by decide)).1 (by decide),
   (start_line_checks_in_order Request.new "GET index.html HTTP/1.1\r\nHost: a\r\n".toList
      "GET index.html HTTP/1.1".toList "GET".toList "index.html".toList "HTTP/1.1".toList
      ["Host: a".toList] (by decide) (by decide)).2.1 (by decide) (by decide),
   (start_line_checks_in_order Request.new "GET / HTTP/1.0\r\nHost: a\r\n".toList
      "GET / HTTP/1.0".toList "GET".toList "/".toList "HTTP/1.0".toList ["Host: a".toList]
      (by decide) (by decide)).2.2 (by decide) (by decide) (by decide)⟩

theorem Split_eq_splitWhere (s : Str) (c : Char) :
    Split s c = splitWhere (fun x => decide (x = c)) s := by
  induction s with
  | nil => rfl
  | cons a s ih =>
    rw [Split, splitWhere, ih]
    by_cases h : a = c
    · simp [h]
    · simp [h]

/-- C17 (as amended): `Parse` fails whenever the start line does not split
into exactly three tokens at its space characters: when `strings.Split` of the
line at the single space gives another number of pieces than three (the error
then names the start line), and also when the line has another number than
three of tokens separated by runs of spaces. -/
theorem start_line_needs_three_space_tokens (req : Request) (frame l : Str) (hs : List Str)
    (hl : frameLines frame = l :: hs) :
    ((Split l ' ').length ≠ 3 →
      (req.Parse frame).2 = some ⟨"start".toList, "line:".toList, l⟩) ∧
    ((tokensWhere (fun x => decide (x = ' ')) l).length ≠ 3 → (req.Parse frame).2 ≠ none) := by
  refine ⟨?_, ?_⟩
  · intro hn
    apply Parse_of_start_error hl
    unfold Request.parseStartLine
    split
    · rename_i e0 e1 e2 heq
      rw [heq] at hn
      exact absurd rfl hn
    · rfl
  · intro hn hnone
    apply hn
    have h3 := ((Parse_none_iff req frame).mp hnone).1
    rw [hl, Request.parseLines] at h3
    simp only [Nat.zero_add, if_true] at h3
    cases hr : (req.parseStartLine l).2 with
    | some e => rw [hr] at h3; simp at h3
    | none =>
      obtain ⟨t, hs2, hpre, _⟩ := parseStartLine_none hr
      have ht : t ≠ [] := by
        intro h
        rw [h] at hpre
        simp [HasPrefix, List.isPrefixOf] at hpre
      rw [tokensWhere, ← Split_eq_splitWhere, hs2]
      cases t with
      | nil => exact absurd rfl ht
      | cons a t => rfl

/-- C17 at the start lines `GET /` (two tokens) and `GET  / HTTP/1.1` (two
spaces in a row: four pieces). -/
theorem start_line_needs_three_space_tokens_witness :
    (Request.new.Parse "GET /\r\nHost: a\r\n".toList).2 =
      some ⟨"start".toList, "line:".toList, "GET /".toList⟩ ∧
    (Request.new.Parse "GET  / HTTP/1.1\r\nHost: a\r\n".toList).2 =
      some ⟨"start".toList, "line:".toList, "GET  / HTTP/1.1".toList⟩ :=
  ⟨(start_line_needs_three_space_tokens Request.new "GET /\r\nHost: a\r\n".toList
      "GET /".toList ["Host: a".toList] (by decide)).1 (by decide),
   (start_line_needs_three_space_tokens Request.new "GET  / HTTP/1.1\r\nHost: a\r\n".toList
      "GET  / HTTP/1.1".toList ["Host: a".toList] (by decide)).1 (by decide)⟩

/-- C17 as stated fails: the start line `GET /a<TAB>b HTTP/1.1` has four
white-space-separated tokens, and `Parse` accepts it, because it splits the
line at the space character only. -/
theorem tab_in_target_accepted :
    tokensWhere isSpace "GET /a\tb HTTP/1.1".toList =
      ["GET".toList, "/a".toList, "b".toList, "HTTP/1.1".toList] ∧
    (tokensWhere isSpace "GET /a\tb HTTP/1.1".toList).length ≠ 3 ∧
    frameLines "GET /a\tb HTTP/1.1\r\nHost: website1\r\n".toList =
      ["GET /a\tb HTTP/1.1".toList, "Host: website1".toList] ∧
    (Request.new.Parse "GET /a\tb HTTP/1.1\r\nHost: website1\r\n".toList).2 = none ∧
    (Request.new.Parse "GET /a\tb HTTP/1.1\r\nHost: website1\r\n".toList).1.URL =
      "/a\tb".toList := by
  decide

/-- C18: for every input string, if `Parse` on a fresh request returns no
error, the request has the method `GET`, the protocol `HTTP/1.1`, a URL that
starts with `/` and does not end with `/`, and a non-empty host. -/
theorem parsed_request_is_valid (req : Request) (s : Str)
    (hp : Request.new.Parse s = (req, none)) :
    req.Method = "GET".toList ∧ req.Proto = "HTTP/1.1".toList ∧
    req.URL.head? = some '/' ∧ req.URL.getLast? ≠ some '/' ∧ req.Host ≠ [] := by
  obtain ⟨l, hs, hl⟩ := List.exists_cons_of_ne_nil (frameLines_ne_nil_of_Parse_new hp)
  obtain ⟨t, _, hpre, _, hm, hu, hpr, _, _, _, _, hh, _⟩ := Parse_accepted hp hl
  refine ⟨hm, hpr, ?_, ?_, hh⟩
  · cases t with
    | nil => simp [HasPrefix, List.isPrefixOf] at hpre
    | cons a t =>
      have ha : a = '/' := by
        simp only [HasPrefix, List.isPrefixOf, Bool.and_true, beq_iff_eq] at hpre
        exact hpre.symm
      rw [hu, normalizeURL]
      split <;> simp [ha]
  · rw [hu, normalizeURL]
    by_cases h3 : HasSuffix t ['/'] = true
    · rw [if_pos h3]
      have : (t ++ "index.html".toList).getLast? = some 'l' := by
        rw [show "index.html".toList = "index.htm".toList ++ ['l'] by decide, ← List.append_assoc,
          List.getLast?_append]
        rfl
      rw [this]
      decide
    · rw [if_neg h3]
      exact fun hh => h3 ((HasSuffix_singleton _ _).mpr hh)

/-- C18 at the first frame of `Test200OK404NotFound`. -/
theorem parsed_request_is_valid_witness :
    (Request.new.Parse "GET / HTTP/1.1\r\nhost: website1\r\n".toList).1.URL.getLast?
      ≠ some '/' :=
  (parsed_request_is_valid (Request.new.Parse "GET / HTTP/1.1\r\nhost: website1\r\n".toList).1
    "GET / HTTP/1.1\r\nhost: website1\r\n".toList (by decide)).2.2.2.1

/-- C19: for every frame the connection handler hands to `Parse` (the prefix
of the buffer up to the first CRLF CRLF with the first of its two CRLF), and
whatever the request held before, the loop of `Parse`, when it ends without
an error, leaves nothing unconsumed; so the guard `len(remaining) != 0` is
false whenever it is reached, the `incomplete request` error is never
returned, and `Parse` returns what its loop and its host check give. -/
theorem incomplete_request_unreachable (req : Request) (remaining : Str) (idx : Nat)
    (hi : Index remaining CRLFCRLF = some idx) :
    ((Request.parseLoop (remaining.take (idx + 2)).length req (remaining.take (idx + 2)) 0).2.2
        = none →
      (Request.parseLoop (remaining.take (idx + 2)).length req
        (remaining.take (idx + 2)) 0).2.1 = []) ∧
    req.Parse (remaining.take (idx + 2)) =
      (match Request.parseLoop (remaining.take (idx + 2)).length req
          (remaining.take (idx + 2)) 0 with
        | (req1, _, some e) => (req1, some e)
        | (req1, _, none) =>
          if req1.Host = [] then
            (req1, some ⟨req1.Method, req1.URL, "unspecified host".toList⟩)
          else (req1, none)) := by
  have hl := parseLoop_eq_parseLines (remaining.take (idx + 2)).length req
    (remaining.take (idx + 2)) 0 (le_refl _)
  have hend : (splitCRLF (remaining.take (idx + 2))).getLast? = some [] := by
    rw [take_of_Index_CRLFCRLF hi]
    exact getLast?_splitCRLF_append_CRLF _
  have h1 : (Request.parseLoop (remaining.take (idx + 2)).length req
      (remaining.take (idx + 2)) 0).2.2 = none →
      (Request.parseLoop (remaining.take (idx + 2)).length req
        (remaining.take (idx + 2)) 0).2.1 = [] := by
    intro hn
    have h2 := hl.2.2 (by rw [← hl.2.1]; exact hn)
    rw [hend] at h2
    exact (Option.some.inj h2).symm
  refine ⟨h1, ?_⟩
  unfold Request.Parse
  rcases hpl : Request.parseLoop (remaining.take (idx + 2)).length req
    (remaining.take (idx + 2)) 0 with ⟨req1, rem, err⟩
  rw [hpl] at h1
  cases err with
  | some e => rfl
  | none =>
    have hr : rem = [] := h1 rfl
    subst hr
    simp only [List.length_nil, ne_eq, not_true_eq_false, if_false]

/-- C19 at a buffer holding the frame `GET / HTTP/1.1` and more, parsed into a
request that already holds a host. -/
theorem incomplete_request_unreachable_witness :
    (Request.parseLoop ("GET / HTTP/1.1\r\n\r\nrest".toList.take (14 + 2)).length website1Request
      ("GET / HTTP/1.1\r\n\r\nrest".toList.take (14 + 2)) 0).2.1 = [] :=
  (incomplete_request_unreachable website1Request "GET / HTTP/1.1\r\n\r\nrest".toList 14
    (by decide)).1 (by decide)

/-! ## Parsing twice -/

theorem GoMap.find_eq_none_iff (m : List (Str × Str)) (k : Str) :
    GoMap.find m k = none ↔ k ∉ GoMap.keys m := by
  induction m with
  | nil => simp [GoMap.find, GoMap.keys]
  | cons e m ih =>
    obtain ⟨k1, v1⟩ := e
    simp only [GoMap.find, GoMap.keys, List.map_cons, List.mem_cons, not_or] at ih ⊢
    by_cases h : k1 = k
    · simp [h]
    · simp only [h, if_false, ih]
      exact ⟨fun hh => ⟨fun e => h e.symm, hh⟩, fun hh => hh.2⟩

theorem GoMap.keys_insert (m : List (Str × Str)) (k v : Str) :
    GoMap.keys (GoMap.insert m k v) =
      if k ∈ GoMap.keys m then GoMap.keys m else GoMap.keys m ++ [k] := by
  induction m with
  | nil => simp [GoMap.insert, GoMap.keys]
  | cons e m ih =>
    obtain ⟨k1, v1⟩ := e
    simp only [GoMap.keys, List.map_cons, List.mem_cons] at ih ⊢
    by_cases h : k1 = k
    · subst h
      simp [GoMap.insert]
    · simp only [GoMap.insert, h, if_false, List.map_cons, ih]
      have hne : ¬ k = k1 := fun e => h e.symm
      simp only [hne, false_or]
      split <;> simp

theorem GoMap.nodup_keys_insert (m : List (Str × Str)) (k v : Str)
    (h : (GoMap.keys m).Nodup) : (GoMap.keys (GoMap.insert m k v)).Nodup := by
  rw [GoMap.keys_insert]
  split
  · exact h
  · rename_i hk
    rw [List.nodup_append]
    refine ⟨h, by simp, ?_⟩
    intro a ha hb
    simp only [List.mem_singleton] at hb
    subst hb
    exact hk ha

/-- Two maps with the same keys in the same order, no key twice, and the same
value under every key are the same map. -/
theorem GoMap.ext_of_keys (m1 m2 : List (Str × Str)) (hn : (GoMap.keys m1).Nodup)
    (hk : GoMap.keys m1 = GoMap.keys m2) (hf : ∀ k, GoMap.find m1 k = GoMap.find m2 k) :
    m1 = m2 := by
  induction m1 generalizing m2 with
  | nil =>
    cases m2 with
    | nil => rfl
    | cons e m2 => simp [GoMap.keys] at hk
  | cons e1 r1 ih =>
    cases m2 with
    | nil => simp [GoMap.keys] at hk
    | cons e2 r2 =>
      obtain ⟨k1, v1⟩ := e1
      obtain ⟨k2, v2⟩ := e2
      simp only [GoMap.keys, List.map_cons, List.cons.injEq] at hk
      obtain ⟨hk1, hkr⟩ := hk
      subst hk1
      have hv : v1 = v2 := by
        have := hf k1
        simpa [GoMap.find] using this
      subst hv
      simp only [GoMap.keys, List.map_cons, List.nodup_cons] at hn
      have hr : r1 = r2 := by
        apply ih r2 hn.2 hkr
        intro k
        by_cases h : k1 = k
        · subst h
          have h1 : GoMap.find r1 k1 = none := (GoMap.find_eq_none_iff r1 k1).mpr hn.1
          have h2 : GoMap.find r2 k1 = none :=
            (GoMap.find_eq_none_iff r2 k1).mpr (by
              show k1 ∉ List.map Prod.fst r2
              rw [← hkr]; exact hn.1)
          rw [h1, h2]
        · have := hf k
          simpa [GoMap.find, h] using this
      rw [hr]

theorem GoMap.find_assign (m ops : List (Str × Str)) (k : Str) :
    GoMap.find (GoMap.assign m ops) k =
      match GoMap.lastAssigned ops k with
      | some v => some v
      | none => GoMap.find m k := by
  induction ops generalizing m with
  | nil => rfl
  | cons kv ops ih =>
    have h1 : GoMap.assign m (kv :: ops) = GoMap.assign (GoMap.insert m kv.1 kv.2) ops := rfl
    rw [h1, ih, GoMap.lastAssigned]
    cases GoMap.lastAssigned ops k with
    | some v => rfl
    | none =>
      simp only [GoMap.find_insert]
      split <;> rfl

theorem GoMap.nodup_keys_assign (m ops : List (Str × Str)) (h : (GoMap.keys m).Nodup) :
    (GoMap.keys (GoMap.assign m ops)).Nodup := by
  induction ops generalizing m with
  | nil => exact h
  | cons kv ops ih => exact ih _ (GoMap.nodup_keys_insert m kv.1 kv.2 h)

theorem GoMap.keys_subset_assign (m ops : List (Str × Str)) :
    ∀ k ∈ GoMap.keys m, k ∈ GoMap.keys (GoMap.assign m ops) := by
  induction ops generalizing m with
  | nil => exact fun k hk => hk
  | cons kv ops ih =>
    intro k hk
    apply ih (GoMap.insert m kv.1 kv.2)
    rw [GoMap.keys_insert]
    split
    · exact hk
    · simp [hk]

theorem GoMap.mem_keys_assign (m ops : List (Str × Str)) :
    ∀ kv ∈ ops, kv.1 ∈ GoMap.keys (GoMap.assign m ops) := by
  induction ops generalizing m with
  | nil => intro kv hkv; cases hkv
  | cons kv0 ops ih =>
    intro kv hkv
    simp only [List.mem_cons] at hkv
    show kv.1 ∈ GoMap.keys (GoMap.assign (GoMap.insert m kv0.1 kv0.2) ops)
    rcases hkv with rfl | hkv
    · apply GoMap.keys_subset_assign
      rw [GoMap.keys_insert]
      split
      · assumption
      · simp
    · exact ih _ kv hkv

theorem GoMap.keys_assign_of_mem (m ops : List (Str × Str))
    (h : ∀ kv ∈ ops, kv.1 ∈ GoMap.keys m) : GoMap.keys (GoMap.assign m ops) = GoMap.keys m := by
  induction ops generalizing m with
  | nil => rfl
  | cons kv ops ih =>
    have hkv : kv.1 ∈ GoMap.keys m := h kv (by simp)
    have hk : GoMap.keys (GoMap.insert m kv.1 kv.2) = GoMap.keys m := by
      rw [GoMap.keys_insert, if_pos hkv]
    have h1 : GoMap.assign m (kv :: ops) = GoMap.assign (GoMap.insert m kv.1 kv.2) ops := rfl
    rw [h1, ih _ (by rw [hk]; exact fun x hx => h x (by simp [hx])), hk]

/-- Carrying out a sequence of assignments a second time changes nothing. -/
theorem GoMap.assign_assign (m ops : List (Str × Str)) (hn : (GoMap.keys m).Nodup) :
    GoMap.assign (GoMap.assign m ops) ops = GoMap.assign m ops := by
  apply GoMap.ext_of_keys
  · exact GoMap.nodup_keys_assign _ _ (GoMap.nodup_keys_assign _ _ hn)
  · exact GoMap.keys_assign_of_mem _ _ (GoMap.mem_keys_assign m ops)
  · intro k
    rw [GoMap.find_assign (GoMap.assign m ops), GoMap.find_assign m]
    cases GoMap.lastAssigned ops k <;> rfl

theorem foldl_storeHeader (m : GoMap) (hs : List Str) :
    hs.foldl storeHeader m = ⟨GoMap.assign m.entries (headerOps hs)⟩ := by
  induction hs generalizing m with
  | nil => rfl
  | cons h hs ih =>
    rw [List.foldl_cons, ih]
    unfold storeHeader headerOps
    rw [List.filterMap_cons]
    by_cases h1 : eqIgnoreCase (headerName h) "Host".toList = true
    · simp only [h1, if_true]
    · by_cases h2 : eqIgnoreCase (headerName h) "Connection".toList = true
      · simp only [h1, h2, if_true, if_false, Bool.false_eq_true]
      · simp only [h1, h2, if_false, Bool.false_eq_true]
        rfl

/-- Storing the header lines of a frame a second time leaves the header map
as it is. -/
theorem foldl_storeHeader_twice (m : GoMap) (hs : List Str) (hn : (GoMap.keys m.entries).Nodup) :
    hs.foldl storeHeader (hs.foldl storeHeader m) = hs.foldl storeHeader m := by
  rw [foldl_storeHeader m, foldl_storeHeader]
  simp only [GoMap.assign_assign _ _ hn]

/-- Parsing an accepted frame again, into the request the first parse filled,
is accepted and gives the same request. -/
theorem Parse_again {req : Request} {frame : Str}
    (hp : Request.new.Parse frame = (req, none)) : req.Parse frame = (req, none) := by
  obtain ⟨l, hs, hl⟩ := List.exists_cons_of_ne_nil (frameLines_ne_nil_of_Parse_new hp)
  obtain ⟨t, hsp, hpre, hg, hm, hu, hpr, hhost, hclose, hhead, hbody, hne, hend⟩ :=
    Parse_accepted hp hl
  have h0 : t.head? = some '/' := by
    cases t with
    | nil => simp [HasPrefix, List.isPrefixOf] at hpre
    | cons a t =>
      simp only [HasPrefix, List.isPrefixOf, Bool.and_true, beq_iff_eq] at hpre
      simp [← hpre]
  have ht : ' ' ∉ t := Split_not_mem l ' ' t (by simp [hsp])
  have hline : l = "GET ".toList ++ t ++ " HTTP/1.1".toList := by
    have := Split_intercalate l ' '
    rw [hsp] at this
    rw [← this]
    simp [List.intercalate]
  have hhost2 : ((lastHeaderLine "Host".toList hs).map headerValue).getD req.Host ≠ [] := by
    cases hlh : lastHeaderLine "Host".toList hs with
    | none => exact hne
    | some h =>
      rw [hlh] at hhost
      have : (Option.map headerValue (some h)).getD req.Host = req.Host := hhost.symm
      rw [this]
      exact hne
  have hacc := Parse_accepts req hl hend h0 ht hline hg hhost2
  have hp2 : req.Parse frame = ((req.Parse frame).1, none) := by
    rw [← hacc.1]
  obtain ⟨t2, hsp2, _, _, hm2, hu2, hpr2, hhost3, hclose2, hhead2, hbody2, _, _⟩ :=
    Parse_accepted hp2 hl
  have ht2 : t2 = t := by
    rw [hsp] at hsp2
    simp only [List.cons.injEq, and_true, true_and] at hsp2
    exact hsp2.symm
  subst ht2
  have e1 : (req.Parse frame).1.Host = req.Host := by
    rw [hhost3, hhost]
    cases (lastHeaderLine "Host".toList hs) <;> rfl
  have e2 : (req.Parse frame).1.Close = req.Close := by
    rw [hclose2, hclose]
    cases (lastHeaderLine "Connection".toList hs) <;> rfl
  have e3 : (req.Parse frame).1.Headers = req.Headers := by
    rw [hhead2, hhead]
    exact foldl_storeHeader_twice _ _ (by simp [Request.new, GoMap.make, GoMap.keys])
  have e4 : (req.Parse frame).1.Body = req.Body := hbody2
  have e5 : (req.Parse frame).1 = req := by
    rcases hq : (req.Parse frame).1 with ⟨a1, a2, a3, a4, a5, a6, a7⟩
    rw [hq] at hm2 hu2 hpr2 e1 e2 e3 e4
    rcases req with ⟨b1, b2, b3, b4, b5, b6, b7⟩
    simp only at hm hu hpr hm2 hu2 hpr2 e1 e2 e3 e4
    rw [hm2, hu2, hpr2, e1, e2, e3, e4, hm, hu, hpr]
  rw [hp2, e5]

/-- C12: for every frame string that `Parse` accepts on a fresh request,
parsing the same string a second time, into a fresh request or again into the
request filled by the first parse, also succeeds and gives a request equal to
the result of the first parse, field for field: method, URL, protocol, host,
close flag, headers and body. -/
theorem parse_twice_same_request (req : Request) (frame : Str)
    (hp : Request.new.Parse frame = (req, none)) :
    ((Request.new.Parse frame).2 = none ∧ (Request.new.Parse frame).1 = req) ∧
    ((req.Parse frame).2 = none ∧ (req.Parse frame).1 = req) ∧
    ((req.Parse frame).1.Method = req.Method ∧ (req.Parse frame).1.URL = req.URL ∧
      (req.Parse frame).1.Proto = req.Proto ∧ (req.Parse frame).1.Host = req.Host ∧
      (req.Parse frame).1.Close = req.Close ∧ (req.Parse frame).1.Headers = req.Headers ∧
      (req.Parse frame).1.Body = req.Body) := by
  have h2 := Parse_again hp
  rw [hp, h2]
  exact ⟨⟨rfl, rfl⟩, ⟨rfl, rfl⟩, rfl, rfl, rfl, rfl, rfl, rfl, rfl⟩

/-- C12 at a frame with a repeated header: `X-A` is stored three times. -/
theorem parse_twice_same_request_witness :
    ((Request.new.Parse
      "GET / HTTP/1.1\r\nHost: a\r\nx-a: 1\r\ny: 3\r\nX-A: 2\r\nconnection: close\r\n".toList).1.Parse
      "GET / HTTP/1.1\r\nHost: a\r\nx-a: 1\r\ny: 3\r\nX-A: 2\r\nconnection: close\r\n".toList).1 =
    (Request.new.Parse
      "GET / HTTP/1.1\r\nHost: a\r\nx-a: 1\r\ny: 3\r\nX-A: 2\r\nconnection: close\r\n".toList).1 :=
  (parse_twice_same_request
    (Request.new.Parse
      "GET / HTTP/1.1\r\nHost: a\r\nx-a: 1\r\ny: 3\r\nX-A: 2\r\nconnection: close\r\n".toList).1
    "GET / HTTP/1.1\r\nHost: a\r\nx-a: 1\r\ny: 3\r\nX-A: 2\r\nconnection: close\r\n".toList
    (by decide)).2.1.2

/-! ## Read boundaries -/

/-- The first occurrence of a substring is still the first when more bytes
follow the string. -/
theorem Index_append_of_some {s sub : Str} {i : Nat} (t : Str) (h : Index s sub = some i) :
    Index (s ++ t) sub = some i := by
  induction s generalizing i with
  | nil =>
    rw [Index_nil] at h
    split at h
    · rename_i hp
      cases h
      have : sub = [] := by
        have := List.isPrefixOf_iff_prefix.mp hp
        simpa using this
      subst this
      rw [Index.eq_def]
      simp [List.isPrefixOf]
    · cases h
  | cons c s ih =>
    rw [Index_cons] at h
    rw [List.cons_append, Index_cons]
    split at h
    · rename_i hp
      cases h
      have hp2 : sub.isPrefixOf (c :: (s ++ t)) = true := by
        rw [List.isPrefixOf_iff_prefix] at hp ⊢
        exact hp.trans (List.prefix_append (c :: s) t)
      rw [if_pos hp2]
    · rename_i hnp
      cases hj : Index s sub with
      | none => simp [hj] at h
      | some j =>
        simp only [hj, Option.map_some', Option.some.injEq] at h
        subst h
        have hle := Index_some_le hj
        have hnp2 : ¬ sub.isPrefixOf (c :: (s ++ t)) = true := by
          intro hp
          apply hnp
          rw [List.isPrefixOf_iff_prefix] at hp ⊢
          exact List.prefix_of_prefix_length_le hp (List.prefix_append (c :: s) t)
            (by simp; omega)
        rw [if_neg hnp2, ih hj]
        rfl

/-- Draining a buffer that is followed by more bytes: when the drain of the
buffer alone closes the connection, the bytes that follow are left unread;
otherwise the drain goes on with what was left and the bytes that follow. -/
theorem drain_append (s : Server) (env : Env) (b : Str) (n : Nat) (req : Request) (x : Str)
    (conn : Conn) (hn : x.length ≤ n) (ho : conn.closed = false) :
    ((s.drain env n req x conn).2.2.closed = true →
      s.drain env (x ++ b).length req (x ++ b) conn =
        ((s.drain env n req x conn).1, (s.drain env n req x conn).2.1 ++ b,
          (s.drain env n req x conn).2.2)) ∧
    ((s.drain env n req x conn).2.2.closed = false →
      s.drain env (x ++ b).length req (x ++ b) conn =
        s.drain env ((s.drain env n req x conn).2.1 ++ b).length (s.drain env n req x conn).1
          ((s.drain env n req x conn).2.1 ++ b) (s.drain env n req x conn).2.2) := by
  induction n generalizing req x conn with
  | zero =>
    have : x = [] := by simpa using hn
    subst this
    simp only [Server.drain]
    exact ⟨fun h => (by rw [ho] at h; cases h), fun _ => trivial⟩
  | succ n ih =>
    rw [Server.drain]
    cases hi : Index x CRLFCRLF with
    | none => exact ⟨fun h => (by rw [ho] at h; cases h), fun _ => rfl⟩
    | some idx =>
      have hd := drop_length_lt_of_Index hi
      have hle := Index_some_le hi
      simp only [CRLFCRLF, List.length_cons, List.length_nil] at hle
      have hi2 := Index_append_of_some b hi
      have htake : (x ++ b).take (idx + 2) = x.take (idx + 2) := by
        rw [List.take_append_of_le_length (by omega)]
      have hdrop : (x ++ b).drop (idx + 4) = x.drop (idx + 4) ++ b := by
        rw [List.drop_append_of_le_length (by omega)]
      have hstep : s.drain env (x ++ b).length req (x ++ b) conn =
          if (s.respond env req (x.take (idx + 2))).2.Headers.get "Connection".toList =
              "close".toList then
            ((s.respond env req (x.take (idx + 2))).1, x.drop (idx + 4) ++ b,
              (conn.Write (s.respond env req (x.take (idx + 2))).2).Close)
          else
            s.drain env (x.drop (idx + 4) ++ b).length (s.respond env req (x.take (idx + 2))).1
              (x.drop (idx + 4) ++ b) (conn.Write (s.respond env req (x.take (idx + 2))).2) := by
        rw [← drain_fuel s env ((x ++ b).length + 1) req (x ++ b) conn (by omega), Server.drain]
        simp only [hi2, htake, hdrop]
        split
        · rfl
        · rw [drain_fuel s env (x ++ b).length _ _ _
            (by simp only [List.length_append, List.length_drop]; omega)]
      simp only
      by_cases hc : (s.respond env req (x.take (idx + 2))).2.Headers.get "Connection".toList =
          "close".toList
      · rw [if_pos hc] at hstep ⊢
        exact ⟨fun _ => hstep, fun h => (by simp [Conn.Close] at h)⟩
      · rw [if_neg hc] at hstep ⊢
        rw [hstep]
        exact ih _ _ _ (by omega) (by simpa [Conn.Write] using ho)

/-- What the outer loop does from its top depends on the buffer only through
what the drain makes of it. -/
theorem serve_congr (s : Server) (env : Env) (reads : List ReadResult) (req req2 : Request)
    (x x2 : Str) (conn conn2 : Conn)
    (h : s.drain env x.length req x conn = s.drain env x2.length req2 x2 conn2) :
    s.serve env reads req x conn = s.serve env reads req2 x2 conn2 := by
  cases reads with
  | nil => rw [Server.serve, Server.serve, h]
  | cons r reads => rw [Server.serve, Server.serve, h]

/-- Once the drain has closed the connection the outer loop ends. -/
theorem serve_of_closed (s : Server) (env : Env) (reads : List ReadResult) (req : Request)
    (x : Str) (conn : Conn) (h : (s.drain env x.length req x conn).2.2.closed = true) :
    s.serve env reads req x conn = (s.drain env x.length req x conn).2.2 := by
  cases reads with
  | nil => rw [Server.serve]
  | cons r reads =>
    rw [Server.serve]
    rcases hd : s.drain env x.length req x conn with ⟨req1, rem1, conn1⟩
    rw [hd] at h
    simp only at h ⊢
    rw [if_pos h]

/-- C20: for all byte strings `a` and `b`, delivering `a` and then `b` in two
reads makes the connection handler write the same responses and reach the
same open or closed state as delivering `a ++ b` in one read, whatever is read
afterwards. And when the connection is still open after the buffer `x` that
holds the first read has been drained, so that the second read is made, the
handler waits for its next read in the same state, with the same request
object, the same unconsumed buffer and the same connection, as after
a single read. A CRLF CRLF split between the two reads is recognised. -/
theorem read_boundary_independent (s : Server) (env : Env) (a b : Str) :
    (∀ (reads : List ReadResult) (req : Request) (remaining : Str) (conn : Conn),
      s.serve env (.data a :: .data b :: reads) req remaining conn =
        s.serve env (.data (a ++ b) :: reads) req remaining conn) ∧
    (∀ (req : Request) (x : Str) (conn : Conn), conn.closed = false →
      (s.drain env x.length req x conn).2.2.closed = false →
      s.drain env ((s.drain env x.length req x conn).2.1 ++ b).length
          (s.drain env x.length req x conn).1 ((s.drain env x.length req x conn).2.1 ++ b)
          (s.drain env x.length req x conn).2.2 =
        s.drain env (x ++ b).length req (x ++ b) conn) := by
  refine ⟨?_, ?_⟩
  · intro reads req remaining conn
    rw [Server.serve, Server.serve]
    rcases hd : s.drain env remaining.length req remaining conn with ⟨req1, rem1, conn1⟩
    simp only
    by_cases hc : conn1.closed = true
    · rw [if_pos hc, if_pos hc]
    · rw [if_neg hc, if_neg hc]
      have ho : conn1.closed = false := by simpa using hc
      have hda := drain_append s env b (rem1 ++ a).length req1 (rem1 ++ a) conn1 (le_refl _) ho
      rw [← List.append_assoc]
      by_cases hc2 : (s.drain env (rem1 ++ a).length req1 (rem1 ++ a) conn1).2.2.closed = true
      · rw [serve_of_closed s env _ req1 (rem1 ++ a) conn1 hc2]
        have h2 := hda.1 hc2
        rw [serve_of_closed s env reads req1 (rem1 ++ a ++ b) conn1 (by rw [h2]; exact hc2), h2]
      · have ho2 : (s.drain env (rem1 ++ a).length req1 (rem1 ++ a) conn1).2.2.closed = false := by
          simpa using hc2
        have h2 := hda.2 ho2
        rw [Server.serve]
        rcases hd2 : s.drain env (rem1 ++ a).length req1 (rem1 ++ a) conn1 with ⟨req2, rem2, conn2⟩
        rw [hd2] at h2 ho2
        simp only at h2 ho2 ⊢
        rw [if_neg (by simp [ho2])]
        exact serve_congr s env reads _ _ _ _ _ _ h2.symm
  · intro req x conn ho ho2
    exact ((drain_append s env b x.length req x conn (le_refl _) ho).2 ho2).symm

/-- C20 at two reads that split the CRLF CRLF of the first frame: the state
reached is the one a single read gives. -/
theorem read_boundary_independent_witness :
    testServer.drain testEnv
        ((testServer.drain testEnv "GET / HTTP/1.1\r\nHost: website1\r\n\r".toList.length
          Request.new "GET / HTTP/1.1\r\nHost: website1\r\n\r".toList ⟨[], false⟩).2.1 ++
          "\nGET /x".toList).length
        (testServer.drain testEnv "GET / HTTP/1.1\r\nHost: website1\r\n\r".toList.length
          Request.new "GET / HTTP/1.1\r\nHost: website1\r\n\r".toList ⟨[], false⟩).1
        ((testServer.drain testEnv "GET / HTTP/1.1\r\nHost: website1\r\n\r".toList.length
          Request.new "GET / HTTP/1.1\r\nHost: website1\r\n\r".toList ⟨[], false⟩).2.1 ++
          "\nGET /x".toList)
        (testServer.drain testEnv "GET / HTTP/1.1\r\nHost: website1\r\n\r".toList.length
          Request.new "GET / HTTP/1.1\r\nHost: website1\r\n\r".toList ⟨[], false⟩).2.2 =
      testServer.drain testEnv
        ("GET / HTTP/1.1\r\nHost: website1\r\n\r".toList ++ "\nGET /x".toList).length Request.new
        ("GET / HTTP/1.1\r\nHost: website1\r\n\r".toList ++ "\nGET /x".toList) ⟨[], false⟩ :=
  (read_boundary_independent testServer testEnv "GET / HTTP/1.1\r\nHost: website1\r\n\r".toList
    "\nGET /x".toList).2 Request.new "GET / HTTP/1.1\r\nHost: website1\r\n\r".toList ⟨[], false⟩
    rfl (by decide)

end Minihttp
